import Mathlib

/-!
Verification development for the GPX map-animation renderer
(backend/src/gpx_helper/map_animator.py).

The Python source is embedded shallowly:
* machine floats become real numbers (`ℝ`);
* Python `int(...)` truncation and `round(...)` (banker's rounding on a
  half) become `pyTrunc` and `pyRound` on `ℝ`;
* fallible code (functions that raise) returns `Option`;
* PIL images become a size plus a total pixel function (`Img`);
* the network tile fetch is a parameter `fetchTile : ℤ → ℤ → Option Img`
  (per tile key, `none` models a failed download or decode);
* numpy's `interp` / `unique` / `cumsum` pipeline in `resample_route` is
  embedded by `npInterp`, `dedupAdjKeys` and `cumFrom`; since the
  cumulative-distance array is non-decreasing by construction,
  `np.unique(..., return_index=True)` (sort + first-occurrence dedup)
  coincides with adjacent first-occurrence dedup, which is what
  `dedupAdjKeys` implements.
-/

/-- Python `int(x)` on a float: truncation toward zero. -/
noncomputable def pyTrunc (x : ℝ) : ℤ :=
  if 0 ≤ x then ⌊x⌋ else ⌈x⌉

/-- Python `round(x)` on a float (no digits): round half to even. -/
noncomputable def pyRound (x : ℝ) : ℤ :=
  if x - ⌊x⌋ < 1/2 then ⌊x⌋
  else if (1:ℝ)/2 < x - ⌊x⌋ then ⌊x⌋ + 1
  else if Even ⌊x⌋ then ⌊x⌋ else ⌊x⌋ + 1

/-- `DEFAULT_FPS = 30` from the module constants. -/
def DEFAULT_FPS : ℤ := 30

/-- `DEFAULT_MAX_FRAMES`: the configured maximum frame budget
(`MAP_ANIM_MAX_FRAMES`, default 2400).  The embedding passes it as an
explicit `maxFrames` argument to model its env-configurability. -/
def DEFAULT_MAX_FRAMES : ℤ := 2400

/-- `math.radians`. -/
noncomputable def radians (deg : ℝ) : ℝ := deg * (Real.pi / 180)

/-- `math.degrees`. -/
noncomputable def degrees (rad : ℝ) : ℝ := rad * (180 / Real.pi)

/-- `EARTH_RADIUS_METERS = 6_378_137.0`. -/
def EARTH_RADIUS_METERS : ℝ := 6378137

/-- `MAX_MERCATOR_LAT = 85.05112878`. -/
def MAX_MERCATOR_LAT : ℝ := 85.05112878

/-- The latitude (in radians) that reaches the log/tan step of
`latlon_to_web_mercator`: `max(min(lat_rad, radians(MAX_MERCATOR_LAT)),
radians(-MAX_MERCATOR_LAT))`. -/
noncomputable def mercClampRad (lat : ℝ) : ℝ :=
  max (min (radians lat) (radians MAX_MERCATOR_LAT)) (radians (-MAX_MERCATOR_LAT))

/-- `latlon_to_web_mercator`: per point, `x = R * lon_rad` and
`y = R * log(tan(pi/4 + lat_rad/2))` with the latitude clamped first. -/
noncomputable def latlon_to_web_mercator (lats lons : List ℝ) : List ℝ × List ℝ :=
  ((lats.zip lons).map fun pl => EARTH_RADIUS_METERS * radians pl.2,
   (lats.zip lons).map fun pl =>
     EARTH_RADIUS_METERS * Real.log (Real.tan (Real.pi / 4 + mercClampRad pl.1 / 2)))

/-- `latlon_to_web_mercator_point` (the single-point wrapper). -/
noncomputable def latlon_to_web_mercator_point (lat lon : ℝ) : ℝ × ℝ :=
  (EARTH_RADIUS_METERS * radians lon,
   EARTH_RADIUS_METERS * Real.log (Real.tan (Real.pi / 4 + mercClampRad lat / 2)))

/-- `lonlat_to_pixel`: slippy-map pixel coordinates at a zoom level. -/
noncomputable def lonlat_to_pixel (lon lat : ℝ) (zoom : ℕ) : ℝ × ℝ :=
  let latRad := radians lat
  let n : ℝ := 2 ^ zoom
  ((lon + 180) / 360 * n * 256,
   (1 - Real.log (Real.tan latRad + (Real.cos latRad)⁻¹) / Real.pi) / 2 * n * 256)

/-- `pixel_to_lonlat`: inverse of `lonlat_to_pixel`. -/
noncomputable def pixel_to_lonlat (x y : ℝ) (zoom : ℕ) : ℝ × ℝ :=
  let n : ℝ := 2 ^ zoom
  (x / (256 * n) * 360 - 180,
   degrees (Real.arctan (Real.sinh (Real.pi * (1 - 2 * y / (256 * n))))))

/-- The fit test of one iteration of the `choose_zoom_for_bounds` loop:
`abs(x_max - x_min) <= width_px and abs(y_max - y_min) <= height_px`. -/
noncomputable def zoomFits (minLat maxLat minLon maxLon : ℝ)
    (widthPx heightPx : ℤ) (zoom : ℕ) : Prop :=
  |(lonlat_to_pixel maxLon minLat zoom).1 - (lonlat_to_pixel minLon maxLat zoom).1| ≤ (widthPx : ℝ) ∧
  |(lonlat_to_pixel minLon maxLat zoom).2 - (lonlat_to_pixel maxLon minLat zoom).2| ≤ (heightPx : ℝ)

open Classical in
/-- The countdown loop `for zoom in range(max_zoom, -1, -1)`: return the
first zoom that fits, else 0 (at zoom 0 both outcomes give 0). -/
noncomputable def chooseZoomAux (fits : ℕ → Prop) : ℕ → ℕ
  | 0 => 0
  | z + 1 => if fits (z + 1) then z + 1 else chooseZoomAux fits z

/-- `choose_zoom_for_bounds`. -/
noncomputable def choose_zoom_for_bounds (minLat maxLat minLon maxLon : ℝ)
    (widthPx heightPx : ℤ) (maxZoom : ℕ) : ℕ :=
  chooseZoomAux (zoomFits minLat maxLat minLon maxLon widthPx heightPx) maxZoom

/-- `_resolve_effective_fps`, with the module constant `DEFAULT_MAX_FRAMES`
passed explicitly as `maxFrames`. -/
noncomputable def resolve_effective_fps (maxFrames : ℤ) (durationSec fps : ℝ) : ℝ :=
  if durationSec ≤ 0 ∨ maxFrames ≤ 0 then fps
  else min fps ((maxFrames : ℝ) / durationSec)

/-- `total_frames` of `prepare_animation_data`:
`int(duration_sec * fps)`, raised to 2 when below 2. -/
noncomputable def dataTotalFrames (durationSec fps : ℝ) : ℤ :=
  if pyTrunc (durationSec * fps) < 2 then 2 else pyTrunc (durationSec * fps)

/-- One loop iteration of `prepare_animation_data`:
`t = frame / (total_frames - 1)`, `idx = round(t * (n_points - 1))`,
clamped into `[0, n_points - 1]`. -/
noncomputable def frameIdx (nPoints totalFrames : ℤ) (frame : ℕ) : ℤ :=
  max 0 (min (nPoints - 1)
    (pyRound ((frame : ℝ) / ((totalFrames : ℝ) - 1) * ((nPoints : ℝ) - 1))))

/-- `prepare_animation_data`: per-frame indices along the route; raising
`ValueError` on fewer than 2 points becomes `none`. -/
noncomputable def prepare_animation_data (xs ys : List ℝ) (durationSec fps : ℝ) :
    Option (List ℤ × ℤ × ℝ) :=
  if (xs.length : ℤ) < 2 then none
  else
    some ((List.range (dataTotalFrames durationSec fps).toNat).map
        (frameIdx (xs.length : ℤ) (dataTotalFrames durationSec fps)),
      dataTotalFrames durationSec fps, fps)

/-- `np.hypot` of the coordinate differences of two route points. -/
noncomputable def segLen (p q : ℝ × ℝ) : ℝ :=
  Real.sqrt ((q.1 - p.1) ^ 2 + (q.2 - p.2) ^ 2)

/-- Cumulative arc length zipped with the points, starting from offset `d`
at point `p`: models `zip(concatenate(([0.0], cumsum(hypot(diff)))), pts)`. -/
noncomputable def cumFrom (d : ℝ) (p : ℝ × ℝ) : List (ℝ × ℝ) → List (ℝ × (ℝ × ℝ))
  | [] => [(d, p)]
  | q :: rest => (d, p) :: cumFrom (d + segLen p q) q rest

/-- The cumulative-distance/point pairs of a route. -/
noncomputable def routeKnots : List (ℝ × ℝ) → List (ℝ × (ℝ × ℝ))
  | [] => []
  | p :: rest => cumFrom 0 p rest

/-- First-occurrence deduplication of adjacent equal keys.  On the
non-decreasing cumulative-distance array this is exactly
`np.unique(cumulative, return_index=True)` (sorted unique values with the
value at the first occurrence index attached). -/
noncomputable def dedupAdjKeys {α : Type} : List (ℝ × α) → List (ℝ × α)
  | [] => []
  | [a] => [a]
  | a :: b :: rest =>
    if a.1 = b.1 then dedupAdjKeys (a :: rest) else a :: dedupAdjKeys (b :: rest)
termination_by l => l.length

/-- Inner loop of `np.interp`: `xp`/`fp` hold the previous knot, the list
holds the remaining knots (strictly increasing sample positions). -/
noncomputable def npInterpGo (x : ℝ) : ℝ × ℝ → List (ℝ × ℝ) → ℝ
  | (_, fp), [] => fp
  | (xp, fp), (x1, f1) :: rest =>
    if x ≤ x1 then fp + (f1 - fp) * (x - xp) / (x1 - xp)
    else npInterpGo x (x1, f1) rest

/-- `np.interp(x, xp, fp)` for a scalar `x` over knot pairs `(xp_i, fp_i)`. -/
noncomputable def npInterp (x : ℝ) : List (ℝ × ℝ) → ℝ
  | [] => 0
  | (x0, f0) :: rest => if x ≤ x0 then f0 else npInterpGo x (x0, f0) rest

/-- `float(unique_dist[-1])`: total arc length of the route (the last
cumulative distance; deduplication does not change the last key). -/
noncomputable def routeTotalDist (xs ys : List ℝ) : ℝ :=
  ((routeKnots (xs.zip ys)).getLastD (0, (0, 0))).1

/-- The deduplicated cumulative-distance knots with the x coordinate
attached: `(unique_dist, xs_arr[unique_idx])`. -/
noncomputable def knotsX (xs ys : List ℝ) : List (ℝ × ℝ) :=
  (dedupAdjKeys (routeKnots (xs.zip ys))).map fun k => (k.1, k.2.1)

/-- The deduplicated cumulative-distance knots with the y coordinate
attached: `(unique_dist, ys_arr[unique_idx])`. -/
noncomputable def knotsY (xs ys : List ℝ) : List (ℝ × ℝ) :=
  (dedupAdjKeys (routeKnots (xs.zip ys))).map fun k => (k.1, k.2.2)

/-- `np.linspace(0.0, total, m)` (with its endpoint convention, `m ≥ 2`
in all uses). -/
noncomputable def linspaceN (total : ℝ) (m : ℤ) : List ℝ :=
  (List.range m.toNat).map fun (i : ℕ) => (i : ℝ) * total / ((m : ℝ) - 1)

/-- `resample_route`. -/
noncomputable def resample_route (xs ys : List ℝ) (targetPoints : ℤ) :
    List ℝ × List ℝ :=
  if (xs.length : ℤ) ≤ targetPoints ∨ (xs.length : ℤ) < 2 ∨ targetPoints < 2 then
    (xs, ys)
  else if routeTotalDist xs ys = 0 then
    (List.replicate targetPoints.toNat (xs.headD 0),
     List.replicate targetPoints.toNat (ys.headD 0))
  else
    ((linspaceN (routeTotalDist xs ys) targetPoints).map fun t =>
        npInterp t (knotsX xs ys),
     (linspaceN (routeTotalDist xs ys) targetPoints).map fun t =>
        npInterp t (knotsY xs ys))

/-- `total_frames` as precomputed in `prepare_animation_series`:
`max(int(duration_sec * effective_fps), 2)`. -/
noncomputable def seriesTotalFrames (maxFrames : ℤ) (durationSec fps : ℝ) : ℤ :=
  max (pyTrunc (durationSec * resolve_effective_fps maxFrames durationSec fps)) 2

/-- `target_points = min(len(xs), total_frames)`. -/
noncomputable def seriesTarget (maxFrames : ℤ) (xs : List ℝ)
    (durationSec fps : ℝ) : ℤ :=
  min (xs.length : ℤ) (seriesTotalFrames maxFrames durationSec fps)

/-- `prepare_animation_series`, with the frame budget passed explicitly. -/
noncomputable def prepare_animation_series (maxFrames : ℤ) (xs ys : List ℝ)
    (durationSec fps : ℝ) :
    Option (List ℝ × List ℝ × List ℤ × ℤ × ℝ) :=
  match prepare_animation_data
      (resample_route xs ys (seriesTarget maxFrames xs durationSec fps)).1
      (resample_route xs ys (seriesTarget maxFrames xs durationSec fps)).2
      durationSec (resolve_effective_fps maxFrames durationSec fps) with
  | none => none
  | some (frameIndices, totalFrames2, effectiveFps2) =>
    some ((resample_route xs ys (seriesTarget maxFrames xs durationSec fps)).1,
      (resample_route xs ys (seriesTarget maxFrames xs durationSec fps)).2,
      frameIndices, totalFrames2, effectiveFps2)

/-- Projection of the total-frame count out of a `prepare_animation_series`
result. -/
noncomputable def seriesTF (o : Option (List ℝ × List ℝ × List ℤ × ℤ × ℝ)) :
    Option ℤ :=
  o.map fun r => r.2.2.2.1

/-- `_project_points_to_pixels`: route points to output-canvas pixels given
the basemap extent `(minX, maxX, minY, maxY)`. -/
noncomputable def project_points_to_pixels (xs ys : List ℝ)
    (extent : ℝ × ℝ × ℝ × ℝ) (widthPx heightPx : ℤ) : List (ℝ × ℝ) :=
  let xScale := (widthPx : ℝ) / (extent.2.1 - extent.1)
  let yScale := (heightPx : ℝ) / (extent.2.2.2 - extent.2.2.1)
  (xs.zip ys).map fun p => ((p.1 - extent.1) * xScale, (extent.2.2.2 - p.2) * yScale)

/-- A raster image: a size and a total pixel function (RGB triples). -/
structure Img where
  w : ℤ
  h : ℤ
  pix : ℤ → ℤ → ℤ × ℤ × ℤ

/-- `Image.new("RGB", (w, h), color)`. -/
def imgNew (w h : ℤ) (c : ℤ × ℤ × ℤ) : Img :=
  ⟨w, h, fun _ _ => c⟩

/-- `dst.paste(src, (ox, oy))`: overwrite the `src`-sized region at the
offset, keep everything else. -/
def imgPaste (dst src : Img) (ox oy : ℤ) : Img :=
  ⟨dst.w, dst.h, fun i j =>
    if ox ≤ i ∧ i < ox + src.w ∧ oy ≤ j ∧ j < oy + src.h then
      src.pix (i - ox) (j - oy)
    else dst.pix i j⟩

/-- `src.crop((l, t, r, b))`. -/
def imgCrop (src : Img) (l t r b : ℤ) : Img :=
  ⟨r - l, b - t, fun i j => src.pix (l + i) (t + j)⟩

/-- The flat placeholder tile substituted when a tile fetch fails:
`Image.new("RGB", (256, 256), color=(230, 230, 230))`. -/
def placeholderTile : Img := imgNew 256 256 (230, 230, 230)

/-- World size in pixels at a zoom level: `256 * 2 ** zoom`. -/
def worldPx (zoom : ℕ) : ℤ := 256 * 2 ^ zoom

/-- The zoom chosen inside `_compute_tile_fetch_window` (`max_zoom = 18`). -/
noncomputable def bboxZoom (minLat maxLat minLon maxLon : ℝ) (w h : ℤ) : ℕ :=
  choose_zoom_for_bounds minLat maxLat minLon maxLon w h 18

/-- `left = int(round(cx - width_px / 2.0))` of the desired pixel window. -/
noncomputable def windowLeft (minLat maxLat minLon maxLon : ℝ) (w h : ℤ) : ℤ :=
  let zoom := bboxZoom minLat maxLat minLon maxLon w h
  let p1 := lonlat_to_pixel minLon maxLat zoom
  let p2 := lonlat_to_pixel maxLon minLat zoom
  pyRound ((p1.1 + p2.1) / 2 - (w : ℝ) / 2)

/-- `top = int(round(cy - height_px / 2.0))` of the desired pixel window. -/
noncomputable def windowTop (minLat maxLat minLon maxLon : ℝ) (w h : ℤ) : ℤ :=
  let zoom := bboxZoom minLat maxLat minLon maxLon w h
  let p1 := lonlat_to_pixel minLon maxLat zoom
  let p2 := lonlat_to_pixel maxLon minLat zoom
  pyRound ((p2.2 + p1.2) / 2 - (h : ℝ) / 2)

/-- `fetch_left = max(0, left)`. -/
noncomputable def fetchLeft (minLat maxLat minLon maxLon : ℝ) (w h : ℤ) : ℤ :=
  max 0 (windowLeft minLat maxLat minLon maxLon w h)

/-- `fetch_top = max(0, top)`. -/
noncomputable def fetchTop (minLat maxLat minLon maxLon : ℝ) (w h : ℤ) : ℤ :=
  max 0 (windowTop minLat maxLat minLon maxLon w h)

/-- `fetch_right = min(world_px, left + width_px)`. -/
noncomputable def fetchRight (minLat maxLat minLon maxLon : ℝ) (w h : ℤ) : ℤ :=
  min (worldPx (bboxZoom minLat maxLat minLon maxLon w h))
    (windowLeft minLat maxLat minLon maxLon w h + w)

/-- `fetch_bottom = min(world_px, top + height_px)`. -/
noncomputable def fetchBottom (minLat maxLat minLon maxLon : ℝ) (w h : ℤ) : ℤ :=
  min (worldPx (bboxZoom minLat maxLat minLon maxLon w h))
    (windowTop minLat maxLat minLon maxLon w h + h)

/-- The degenerate-window condition that makes `_compute_tile_fetch_window`
raise: `fetch_right <= fetch_left or fetch_bottom <= fetch_top`. -/
noncomputable def windowDegenerate (minLat maxLat minLon maxLon : ℝ) (w h : ℤ) : Prop :=
  fetchRight minLat maxLat minLon maxLon w h ≤ fetchLeft minLat maxLat minLon maxLon w h ∨
  fetchBottom minLat maxLat minLon maxLon w h ≤ fetchTop minLat maxLat minLon maxLon w h

noncomputable instance windowDegenerateDecidable (minLat maxLat minLon maxLon : ℝ) (w h : ℤ) :
    Decidable (windowDegenerate minLat maxLat minLon maxLon w h) := by
  unfold windowDegenerate
  infer_instance

/-- Clamp a tile index into `[0, 2 ** zoom - 1]`:
`max(0, min(v, max_tile_index))`. -/
def clampTile (zoom : ℕ) (v : ℤ) : ℤ :=
  max 0 (min v (2 ^ zoom - 1))

/-- `min_x_tile` after clamping (`int(math.floor(fetch_left / 256))`). -/
noncomputable def minXTile (minLat maxLat minLon maxLon : ℝ) (w h : ℤ) : ℤ :=
  clampTile (bboxZoom minLat maxLat minLon maxLon w h)
    (Int.fdiv (fetchLeft minLat maxLat minLon maxLon w h) 256)

/-- `max_x_tile` after clamping (`int(math.floor((fetch_right - 1) / 256))`). -/
noncomputable def maxXTile (minLat maxLat minLon maxLon : ℝ) (w h : ℤ) : ℤ :=
  clampTile (bboxZoom minLat maxLat minLon maxLon w h)
    (Int.fdiv (fetchRight minLat maxLat minLon maxLon w h - 1) 256)

/-- `min_y_tile` after clamping. -/
noncomputable def minYTile (minLat maxLat minLon maxLon : ℝ) (w h : ℤ) : ℤ :=
  clampTile (bboxZoom minLat maxLat minLon maxLon w h)
    (Int.fdiv (fetchTop minLat maxLat minLon maxLon w h) 256)

/-- `max_y_tile` after clamping. -/
noncomputable def maxYTile (minLat maxLat minLon maxLon : ℝ) (w h : ℤ) : ℤ :=
  clampTile (bboxZoom minLat maxLat minLon maxLon w h)
    (Int.fdiv (fetchBottom minLat maxLat minLon maxLon w h - 1) 256)

/-- `_compute_tile_fetch_window`: zoom, clamped tile bounds, desired pixel
window, clamped fetch window; the `RuntimeError` on a degenerate window
becomes `none`. -/
noncomputable def compute_tile_fetch_window (minLat maxLat minLon maxLon : ℝ)
    (w h : ℤ) :
    Option (ℕ × (ℤ × ℤ × ℤ × ℤ) × (ℤ × ℤ × ℤ × ℤ) × (ℤ × ℤ × ℤ × ℤ)) :=
  let l := windowLeft minLat maxLat minLon maxLon w h
  let t := windowTop minLat maxLat minLon maxLon w h
  let fl := fetchLeft minLat maxLat minLon maxLon w h
  let ft := fetchTop minLat maxLat minLon maxLon w h
  let fr := fetchRight minLat maxLat minLon maxLon w h
  let fb := fetchBottom minLat maxLat minLon maxLon w h
  if fr ≤ fl ∨ fb ≤ ft then none
  else
    some (bboxZoom minLat maxLat minLon maxLon w h,
      (minXTile minLat maxLat minLon maxLon w h,
       maxXTile minLat maxLat minLon maxLon w h,
       minYTile minLat maxLat minLon maxLon w h,
       maxYTile minLat maxLat minLon maxLon w h),
      (l, t, l + w, t + h),
      (fl, ft, fr, fb))

/-- The tile keys visited by the stitch loop, in fetch order
(`for x in range(min_x, max_x + 1): for y in range(min_y, max_y + 1)`). -/
def tileList (minX maxX minY maxY : ℤ) : List (ℤ × ℤ) :=
  (List.range (maxX - minX + 1).toNat).flatMap fun (dx : ℕ) =>
    (List.range (maxY - minY + 1).toNat).map fun (dy : ℕ) =>
      (minX + (dx : ℤ), minY + (dy : ℤ))

/-- The image pasted for one tile key: the fetched tile, or the flat
placeholder when the fetch failed. -/
def tileImgOf (fetchTile : ℤ → ℤ → Option Img) (t : ℤ × ℤ) : Img :=
  match fetchTile t.1 t.2 with
  | some ti => ti
  | none => placeholderTile

/-- One iteration of the stitch loop: fetch the tile (placeholder on
failure) and paste it at its grid offset. -/
def stitchOne (fetchTile : ℤ → ℤ → Option Img) (minX minY : ℤ)
    (acc : Img) (t : ℤ × ℤ) : Img :=
  imgPaste acc (tileImgOf fetchTile t) ((t.1 - minX) * 256) ((t.2 - minY) * 256)

/-- The stitched tile mosaic of `fetch_basemap_image`: a black canvas of
`tiles_wide*256 x tiles_high*256` with every tile of the range pasted at
its grid offset (placeholder tiles where the fetch failed). -/
noncomputable def stitchedImg (fetchTile : ℤ → ℤ → Option Img)
    (minLat maxLat minLon maxLon : ℝ) (w h : ℤ) : Img :=
  (tileList (minXTile minLat maxLat minLon maxLon w h)
      (maxXTile minLat maxLat minLon maxLon w h)
      (minYTile minLat maxLat minLon maxLon w h)
      (maxYTile minLat maxLat minLon maxLon w h)).foldl
    (stitchOne fetchTile (minXTile minLat maxLat minLon maxLon w h)
      (minYTile minLat maxLat minLon maxLon w h))
    (imgNew ((maxXTile minLat maxLat minLon maxLon w h -
        minXTile minLat maxLat minLon maxLon w h + 1) * 256)
      ((maxYTile minLat maxLat minLon maxLon w h -
        minYTile minLat maxLat minLon maxLon w h + 1) * 256)
      (0, 0, 0))

/-- The crop of the stitched mosaic to the clamped fetch window. -/
noncomputable def croppedImg (fetchTile : ℤ → ℤ → Option Img)
    (minLat maxLat minLon maxLon : ℝ) (w h : ℤ) : Img :=
  imgCrop (stitchedImg fetchTile minLat maxLat minLon maxLon w h)
    (fetchLeft minLat maxLat minLon maxLon w h -
      minXTile minLat maxLat minLon maxLon w h * 256)
    (fetchTop minLat maxLat minLon maxLon w h -
      minYTile minLat maxLat minLon maxLon w h * 256)
    (fetchLeft minLat maxLat minLon maxLon w h -
      minXTile minLat maxLat minLon maxLon w h * 256 +
      (fetchRight minLat maxLat minLon maxLon w h -
        fetchLeft minLat maxLat minLon maxLon w h))
    (fetchTop minLat maxLat minLon maxLon w h -
      minYTile minLat maxLat minLon maxLon w h * 256 +
      (fetchBottom minLat maxLat minLon maxLon w h -
        fetchTop minLat maxLat minLon maxLon w h))

/-- The final basemap canvas: the crop itself when it already has the
requested size, else the crop pasted into a placeholder-filled canvas of
the requested size at `(fetch_left - left, fetch_top - top)`. -/
noncomputable def finalImg (fetchTile : ℤ → ℤ → Option Img)
    (minLat maxLat minLon maxLon : ℝ) (w h : ℤ) : Img :=
  if (croppedImg fetchTile minLat maxLat minLon maxLon w h).w = w ∧
      (croppedImg fetchTile minLat maxLat minLon maxLon w h).h = h then
    croppedImg fetchTile minLat maxLat minLon maxLon w h
  else
    imgPaste (imgNew w h (230, 230, 230))
      (croppedImg fetchTile minLat maxLat minLon maxLon w h)
      (fetchLeft minLat maxLat minLon maxLon w h -
        windowLeft minLat maxLat minLon maxLon w h)
      (fetchTop minLat maxLat minLon maxLon w h -
        windowTop minLat maxLat minLon maxLon w h)

/-- The Web-Mercator extent of the final canvas, recovered by
inverse-projecting the unclamped window corners. -/
noncomputable def basemapExtent (minLat maxLat minLon maxLon : ℝ) (w h : ℤ) :
    ℝ × ℝ × ℝ × ℝ :=
  let zoom := bboxZoom minLat maxLat minLon maxLon w h
  let l := windowLeft minLat maxLat minLon maxLon w h
  let t := windowTop minLat maxLat minLon maxLon w h
  let nw := pixel_to_lonlat (l : ℝ) (t : ℝ) zoom
  let se := pixel_to_lonlat ((l + w : ℤ) : ℝ) ((t + h : ℤ) : ℝ) zoom
  let mercNW := latlon_to_web_mercator_point nw.2 nw.1
  let mercSE := latlon_to_web_mercator_point se.2 se.1
  (mercNW.1, mercSE.1, mercSE.2, mercNW.2)

/-- `fetch_basemap_image`, parameterized by the per-tile fetch oracle
(`none` = download/decode failure for that tile key).  The URL template
and subdomain cycling only determine which URL a given `(x, y)` key
resolves to, so they are absorbed into the oracle.  Destructures
`_compute_tile_fetch_window`; the propagated `RuntimeError` is `none`. -/
noncomputable def fetch_basemap_image (fetchTile : ℤ → ℤ → Option Img)
    (minLat maxLat minLon maxLon : ℝ) (w h : ℤ) :
    Option (Img × (ℝ × ℝ × ℝ × ℝ)) :=
  if windowDegenerate minLat maxLat minLon maxLon w h then none
  else
    some (finalImg fetchTile minLat maxLat minLon maxLon w h,
      basemapExtent minLat maxLat minLon maxLon w h)

/-- ASCII lowercasing of one character (`str.lower`; the characters
relevant to `parse_resolution` are ASCII letters, digits and the
separators, on which this agrees with Python). -/
def pyLowerChar (c : Char) : Char :=
  if 65 ≤ c.toNat ∧ c.toNat ≤ 90 then Char.ofNat (c.toNat + 32) else c

/-- `res_str.lower().replace(" ", "")`. -/
def normalizeRes (s : List Char) : List Char :=
  (s.map pyLowerChar).filter (· ≠ ' ')

/-- `res_str.split(sep, 1)` guarded by `sep in res_str`: `none` when the
separator does not occur, else the parts before and after its first
occurrence. -/
def splitOnce (sep : Char) : List Char → Option (List Char × List Char)
  | [] => none
  | c :: rest =>
    if c = sep then some ([], rest)
    else
      match splitOnce sep rest with
      | some (a, b) => some (c :: a, b)
      | none => none

/-- The whitespace characters stripped by Python `int(str)`. -/
def isPyWS (c : Char) : Bool :=
  c = ' ' ∨ c = '\t' ∨ c = '\n' ∨ c = '\r' ∨ c = '\x0b' ∨ c = '\x0c'

/-- Strip leading and trailing whitespace. -/
def stripWS (s : List Char) : List Char :=
  ((s.dropWhile isPyWS).reverse.dropWhile isPyWS).reverse

/-- Decimal digit test (code points 48-57). -/
def isDigitC (c : Char) : Bool := 48 ≤ c.toNat ∧ c.toNat ≤ 57

/-- Decimal digit value. -/
def digitVal (c : Char) : ℤ := (c.toNat : ℤ) - 48

/-- Digit run of a Python integer literal after its first digit: digits
with single underscores allowed between digits. -/
def pyDigitsAux : ℤ → List Char → Option ℤ
  | acc, [] => some acc
  | acc, c :: rest =>
    if isDigitC c then pyDigitsAux (acc * 10 + digitVal c) rest
    else if c = '_' then
      match rest with
      | [] => none
      | d :: rest2 =>
        if isDigitC d then pyDigitsAux (acc * 10 + digitVal d) rest2 else none
    else none

/-- Unsigned part of Python `int(str)`: at least one digit. -/
def pyIntPos : List Char → Option ℤ
  | [] => none
  | c :: rest => if isDigitC c then pyDigitsAux (digitVal c) rest else none

/-- Signed part of Python `int(str)`. -/
def pyIntCore : List Char → Option ℤ
  | [] => none
  | c :: rest =>
    if c = '+' then pyIntPos rest
    else if c = '-' then (pyIntPos rest).map Int.neg
    else pyIntPos (c :: rest)

/-- Python `int(str)`: strip surrounding whitespace, optional sign,
digits with underscores; `ValueError` becomes `none`. -/
def pyInt (s : List Char) : Option ℤ :=
  pyIntCore (stripWS s)

/-- `return int(w_str), int(h_str)` after a successful split:
`ValueError` from either `int` becomes `none`. -/
def tryParsePair (p : List Char × List Char) : Option (ℤ × ℤ) :=
  match pyInt p.1, pyInt p.2 with
  | some a, some b => some (a, b)
  | _, _ => none

/-- `parse_resolution`: lowercase, drop spaces, then try the separators
`"x"`, `","`, `"×"` in order; split-once at the first separator that
occurs and parse both parts as Python ints; `ValueError` becomes `none`. -/
def parse_resolution (s : List Char) : Option (ℤ × ℤ) :=
  match splitOnce 'x' (normalizeRes s) with
  | some p => tryParsePair p
  | none =>
    match splitOnce ',' (normalizeRes s) with
    | some p => tryParsePair p
    | none =>
      match splitOnce '×' (normalizeRes s) with
      | some p => tryParsePair p
      | none => none

/-! ### Rounding helper lemmas -/

theorem pyTrunc_of_nonneg {x : ℝ} (h : 0 ≤ x) : pyTrunc x = ⌊x⌋ := by
  simp [pyTrunc, h]

theorem floor_le_pyRound (x : ℝ) : ⌊x⌋ ≤ pyRound x := by
  unfold pyRound
  split_ifs <;> omega

theorem pyRound_le_floor_add_one (x : ℝ) : pyRound x ≤ ⌊x⌋ + 1 := by
  unfold pyRound
  split_ifs <;> omega

theorem pyRound_mono {x y : ℝ} (h : x ≤ y) : pyRound x ≤ pyRound y := by
  rcases lt_or_le ⌊x⌋ ⌊y⌋ with hf | hf
  · have h1 := pyRound_le_floor_add_one x
    have h2 := floor_le_pyRound y
    omega
  · have hfe : ⌊x⌋ = ⌊y⌋ := le_antisymm (Int.floor_le_floor h) hf
    unfold pyRound
    rw [hfe]
    split_ifs <;> first | omega | linarith

theorem pyRound_intCast (n : ℤ) : pyRound (n : ℝ) = n := by
  unfold pyRound
  rw [Int.floor_intCast]
  norm_num

theorem pyRound_zero : pyRound 0 = 0 := by
  have h := pyRound_intCast 0
  simpa using h

/-! ### Frame-scheduler helper lemmas -/

theorem dataTotalFrames_eq_max (d f : ℝ) :
    dataTotalFrames d f = max (pyTrunc (d * f)) 2 := by
  unfold dataTotalFrames
  split_ifs <;> omega

theorem two_le_dataTotalFrames (d f : ℝ) : 2 ≤ dataTotalFrames d f := by
  unfold dataTotalFrames
  split_ifs <;> omega

theorem resample_route_fst_two_le (xs ys : List ℝ) {n : ℤ}
    (h2 : 2 ≤ (xs.length : ℤ)) (hn : 2 ≤ n) :
    2 ≤ (((resample_route xs ys n).1).length : ℤ) := by
  unfold resample_route
  split_ifs with h1 hd
  · simpa using h2
  · simp only [List.length_replicate]
    omega
  · rw [List.length_map]
    unfold linspaceN
    rw [List.length_map, List.length_range]
    omega

theorem prepare_animation_data_of_two_le (xs ys : List ℝ) (d f : ℝ)
    (h : 2 ≤ (xs.length : ℤ)) :
    prepare_animation_data xs ys d f =
      some ((List.range (dataTotalFrames d f).toNat).map
          (frameIdx (xs.length : ℤ) (dataTotalFrames d f)),
        dataTotalFrames d f, f) := by
  unfold prepare_animation_data
  rw [if_neg (by omega)]

theorem two_le_seriesTarget (maxF : ℤ) (xs : List ℝ) (d f : ℝ)
    (h : 2 ≤ (xs.length : ℤ)) : 2 ≤ seriesTarget maxF xs d f :=
  le_min h (le_max_right _ _)

theorem seriesTF_eq (maxF : ℤ) (xs ys : List ℝ) (d f : ℝ)
    (h : 2 ≤ (xs.length : ℤ)) :
    seriesTF (prepare_animation_series maxF xs ys d f) =
      some (dataTotalFrames d (resolve_effective_fps maxF d f)) := by
  unfold prepare_animation_series
  have hr := resample_route_fst_two_le xs ys h (two_le_seriesTarget maxF xs d f h)
  rw [prepare_animation_data_of_two_le _ _ _ _ hr]
  simp [seriesTF]

theorem floor_thirteen_fifths : ⌊(13/5 : ℝ)⌋ = 2 := by
  rw [Int.floor_eq_iff] <;> norm_num

theorem resolve_effective_fps_2400_example :
    resolve_effective_fps 2400 (13/10) 2 = 2 := by
  unfold resolve_effective_fps
  rw [if_neg (by norm_num), min_eq_left (by norm_num)]

/-! ### Claim theorems for the frame count (C1) -/

/-- C1 counterexample: at `durationSec = 1.3`, `requestedFps = 2` (default
frame budget 2400, a 2-point route) the code produces
`max(int(1.3 * 2), 2) = 2` total frames, while the claimed formula
`max(round(durationSec * effectiveFps), 2)` gives `max(round(2.6), 2) = 3`. -/
theorem totalFrames_round_counterexample :
    seriesTF (prepare_animation_series DEFAULT_MAX_FRAMES [0, 1] [0, 0] (13/10) 2) ≠
      some (max (pyRound ((13/10) *
        resolve_effective_fps DEFAULT_MAX_FRAMES (13/10) 2)) 2) := by
  have hlen : 2 ≤ (([0, 1] : List ℝ).length : ℤ) := by norm_num
  rw [seriesTF_eq _ _ _ _ _ hlen]
  rw [show DEFAULT_MAX_FRAMES = 2400 from rfl, resolve_effective_fps_2400_example]
  have h1 : dataTotalFrames (13/10) 2 = 2 := by
    unfold dataTotalFrames
    rw [pyTrunc_of_nonneg (by norm_num),
      show (13:ℝ)/10 * 2 = 13/5 by ring, floor_thirteen_fifths]
    norm_num
  have h2 : pyRound ((13:ℝ)/10 * 2) = 3 := by
    rw [show (13:ℝ)/10 * 2 = 13/5 by ring]
    unfold pyRound
    rw [floor_thirteen_fifths]
    norm_num
  rw [h1, h2]
  simp

/-- C1 (amended): for every route with at least 2 points and every
`durationSec > 0`, `requestedFps > 0`, the total frame count returned by
`prepare_animation_series` equals
`max(int(durationSec * effectiveFps), 2)` — Python `int` truncation of
the product (truncation, not rounding as the claim stated), with
`effectiveFps` the capped frame rate of `_resolve_effective_fps`. -/
theorem totalFrames_eq_max_trunc_two (maxFrames : ℤ) (xs ys : List ℝ)
    (durationSec fps : ℝ) (hlen : 2 ≤ (xs.length : ℤ))
    (hd : 0 < durationSec) (hf : 0 < fps) :
    seriesTF (prepare_animation_series maxFrames xs ys durationSec fps) =
      some (max (pyTrunc (durationSec *
        resolve_effective_fps maxFrames durationSec fps)) 2) := by
  rw [seriesTF_eq _ _ _ _ _ hlen, dataTotalFrames_eq_max]

/-- Witness for the amended C1 theorem at a concrete input. -/
theorem totalFrames_eq_max_trunc_two_witness :
    seriesTF (prepare_animation_series 2400 [0, 1] [0, 0] 1 30) =
      some (max (pyTrunc (1 * resolve_effective_fps 2400 1 30)) 2) :=
  totalFrames_eq_max_trunc_two 2400 [0, 1] [0, 0] 1 30 (by norm_num)
    (by norm_num) (by norm_num)

/-! ### Claim theorems for the effective fps cap (C3) -/

/-- C3: for `durationSec > 0` and a positive configured frame budget,
`_resolve_effective_fps` returns `min(requestedFps, maxTotalFrames /
durationSec)`; for `durationSec <= 0` it returns the requested fps
unchanged; and at the claim's example (duration 10, fps 30, budget 20)
the effective fps is 2 and the series total frame count is 20. -/
theorem resolve_effective_fps_spec (maxFrames : ℤ) (durationSec fps : ℝ) :
    (0 < maxFrames → 0 < durationSec →
      resolve_effective_fps maxFrames durationSec fps =
        min fps ((maxFrames : ℝ) / durationSec)) ∧
    (durationSec ≤ 0 → resolve_effective_fps maxFrames durationSec fps = fps) ∧
    resolve_effective_fps 20 10 30 = 2 ∧
    seriesTF (prepare_animation_series 20 [0, 1] [0, 0] 10 30) = some 20 := by
  have heff : resolve_effective_fps 20 10 30 = 2 := by
    unfold resolve_effective_fps
    rw [if_neg (by norm_num), min_eq_right (by norm_num)]
    norm_num
  refine ⟨?_, ?_, heff, ?_⟩
  · intro hm hd
    unfold resolve_effective_fps
    rw [if_neg (by push_neg; exact ⟨by linarith, by omega⟩)]
  · intro hd
    unfold resolve_effective_fps
    rw [if_pos (Or.inl hd)]
  · rw [seriesTF_eq 20 [0, 1] [0, 0] 10 30 (by norm_num), heff]
    unfold dataTotalFrames
    rw [pyTrunc_of_nonneg (by norm_num),
      show (10:ℝ) * 2 = ((20:ℤ):ℝ) by norm_num, Int.floor_intCast]
    norm_num

/-- Witness for C3 at the claim's example input. -/
theorem resolve_effective_fps_spec_witness :
    resolve_effective_fps 20 10 30 = min 30 (((20:ℤ) : ℝ) / 10) :=
  (resolve_effective_fps_spec 20 10 30).1 (by norm_num) (by norm_num)

/-! ### Frame-index helper lemmas -/

theorem frameIdx_zero (n tf : ℤ) (hn : 2 ≤ n) : frameIdx n tf 0 = 0 := by
  unfold frameIdx
  rw [Nat.cast_zero, zero_div, zero_mul, pyRound_zero]
  omega

theorem frameIdx_last (n tf : ℤ) (hn : 2 ≤ n) (htf : 2 ≤ tf) :
    frameIdx n tf (tf.toNat - 1) = n - 1 := by
  unfold frameIdx
  have e1 : tf.toNat - 1 = (tf - 1).toNat := by omega
  rw [e1]
  have e2 : (((tf - 1).toNat : ℕ) : ℝ) = ((tf : ℝ) - 1) := by
    have h := Int.toNat_of_nonneg (show (0:ℤ) ≤ tf - 1 by omega)
    exact_mod_cast congrArg (fun z : ℤ => (z : ℝ)) h
  rw [e2]
  have e3 : ((tf : ℝ) - 1) / ((tf : ℝ) - 1) = 1 := by
    refine div_self ?_
    have h2 : (2:ℝ) ≤ (tf:ℝ) := by exact_mod_cast htf
    linarith
  rw [e3, one_mul]
  have e4 : pyRound ((n:ℝ) - 1) = n - 1 := by
    rw [show ((n:ℝ) - 1) = ((n - 1 : ℤ) : ℝ) by push_cast; ring]
    exact pyRound_intCast _
  rw [e4]
  omega

theorem frameIdx_mono (n tf : ℤ) (hn : 2 ≤ n) (htf : 2 ≤ tf) {a b : ℕ}
    (hab : a ≤ b) : frameIdx n tf a ≤ frameIdx n tf b := by
  unfold frameIdx
  have htf2 : (0:ℝ) < (tf:ℝ) - 1 := by
    have h2 : (2:ℝ) ≤ (tf:ℝ) := by exact_mod_cast htf
    linarith
  have hn2 : (0:ℝ) ≤ (n:ℝ) - 1 := by
    have h2 : (2:ℝ) ≤ (n:ℝ) := by exact_mod_cast hn
    linarith
  have hab2 : (a:ℝ) ≤ (b:ℝ) := by exact_mod_cast hab
  have h1 : (a:ℝ) / ((tf:ℝ) - 1) * ((n:ℝ) - 1) ≤
      (b:ℝ) / ((tf:ℝ) - 1) * ((n:ℝ) - 1) :=
    mul_le_mul_of_nonneg_right ((div_le_div_right htf2).mpr hab2) hn2
  have h2 := pyRound_mono h1
  omega

theorem frameIdx_bounds (n tf : ℤ) (hn : 2 ≤ n) (frame : ℕ) :
    0 ≤ frameIdx n tf frame ∧ frameIdx n tf frame ≤ n - 1 := by
  unfold frameIdx
  omega

theorem range_map_head {α : Type} (f : ℕ → α) {m : ℕ} (hm : 0 < m) :
    ((List.range m).map f).head? = some (f 0) := by
  cases m with
  | zero => omega
  | succ k =>
    rw [List.range_succ_eq_map]
    simp

theorem range_map_getLast {α : Type} (f : ℕ → α) {m : ℕ} (hm : 0 < m) :
    ((List.range m).map f).getLast? = some (f (m - 1)) := by
  cases m with
  | zero => omega
  | succ k =>
    rw [List.range_succ, List.map_append]
    simp

theorem prepare_animation_series_eq (maxF : ℤ) (xs ys : List ℝ) (d f : ℝ)
    (h : 2 ≤ (xs.length : ℤ)) :
    prepare_animation_series maxF xs ys d f =
      some ((resample_route xs ys (seriesTarget maxF xs d f)).1,
        (resample_route xs ys (seriesTarget maxF xs d f)).2,
        (List.range (dataTotalFrames d (resolve_effective_fps maxF d f)).toNat).map
          (frameIdx ((resample_route xs ys (seriesTarget maxF xs d f)).1.length : ℤ)
            (dataTotalFrames d (resolve_effective_fps maxF d f))),
        dataTotalFrames d (resolve_effective_fps maxF d f),
        resolve_effective_fps maxF d f) := by
  unfold prepare_animation_series
  rw [prepare_animation_data_of_two_le _ _ _ _
    (resample_route_fst_two_le xs ys h (two_le_seriesTarget maxF xs d f h))]

theorem resample_route_lengths_eq (xs ys : List ℝ) (n : ℤ)
    (hxy : xs.length = ys.length) :
    (resample_route xs ys n).1.length = (resample_route xs ys n).2.length := by
  unfold resample_route
  split_ifs
  · exact hxy
  · simp
  · rw [List.length_map, List.length_map]

/-! ### Claim theorem for the frame-index invariants (C2) -/

/-- C2: for every route with at least 2 points and every `durationSec > 0`,
`fps > 0`, the frame-index sequence of `prepare_animation_series` is
non-decreasing, starts at 0, ends at `resampledLen - 1`, and has length
equal to the returned `totalFrames`. -/
theorem frameIndices_spec (maxFrames : ℤ) (xs ys : List ℝ)
    (durationSec fps : ℝ) (hlen : 2 ≤ (xs.length : ℤ))
    (hd : 0 < durationSec) (hf : 0 < fps) :
    ∃ xsR ysR fi tf eff,
      prepare_animation_series maxFrames xs ys durationSec fps =
        some (xsR, ysR, fi, tf, eff) ∧
      fi.Pairwise (· ≤ ·) ∧
      fi.head? = some 0 ∧
      fi.getLast? = some ((xsR.length : ℤ) - 1) ∧
      (fi.length : ℤ) = tf := by
  have hn2 := resample_route_fst_two_le xs ys hlen
    (two_le_seriesTarget maxFrames xs durationSec fps hlen)
  have htf2 := two_le_dataTotalFrames durationSec
    (resolve_effective_fps maxFrames durationSec fps)
  have hm : 0 < (dataTotalFrames durationSec
      (resolve_effective_fps maxFrames durationSec fps)).toNat := by omega
  refine ⟨_, _, _, _, _,
    prepare_animation_series_eq maxFrames xs ys durationSec fps hlen,
    ?_, ?_, ?_, ?_⟩
  · exact (List.pairwise_lt_range _).map _
      (fun a b hab => frameIdx_mono _ _ hn2 htf2 (le_of_lt hab))
  · rw [range_map_head _ hm, frameIdx_zero _ _ hn2]
  · rw [range_map_getLast _ hm, frameIdx_last _ _ hn2 htf2]
  · rw [List.length_map, List.length_range]
    omega

/-- Witness for C2 at a concrete input. -/
theorem frameIndices_spec_witness :
    ∃ xsR ysR fi tf eff,
      prepare_animation_series 2400 [0, 1] [0, 0] 1 30 =
        some (xsR, ysR, fi, tf, eff) ∧
      fi.Pairwise (· ≤ ·) ∧
      fi.head? = some 0 ∧
      fi.getLast? = some ((xsR.length : ℤ) - 1) ∧
      (fi.length : ℤ) = tf :=
  frameIndices_spec 2400 [0, 1] [0, 0] 1 30 (by norm_num) (by norm_num)
    (by norm_num)

/-! ### Claim theorem for the in-bounds accesses (C10) -/

/-- C10: every frame index produced by `prepare_animation_series` is a
valid index into the resampled point lists returned alongside it; the
projected `point_pixels` list of `create_animation` has the same length,
so the accesses `point_pixels[idx]` and `point_pixels[seg_idx + 1]` with
`0 <= seg_idx < idx` of the frame loop are in bounds. -/
theorem frame_indices_in_bounds (maxFrames : ℤ) (xs ys : List ℝ)
    (durationSec fps : ℝ) (hlen : 2 ≤ (xs.length : ℤ))
    (hxy : xs.length = ys.length) (hd : 0 < durationSec) (hf : 0 < fps) :
    ∃ xsR ysR fi tf eff,
      prepare_animation_series maxFrames xs ys durationSec fps =
        some (xsR, ysR, fi, tf, eff) ∧
      (∀ i ∈ fi, 0 ≤ i ∧ i < (xsR.length : ℤ)) ∧
      (∀ extent wPx hPx,
        ((project_points_to_pixels xsR ysR extent wPx hPx).length : ℤ) =
          (xsR.length : ℤ)) ∧
      (∀ i ∈ fi, ∀ s : ℤ, 0 ≤ s → s < i →
        0 ≤ s ∧ s < (xsR.length : ℤ) ∧ 0 ≤ s + 1 ∧ s + 1 < (xsR.length : ℤ)) := by
  have hn2 := resample_route_fst_two_le xs ys hlen
    (two_le_seriesTarget maxFrames xs durationSec fps hlen)
  have hyx := resample_route_lengths_eq xs ys
    (seriesTarget maxFrames xs durationSec fps) hxy
  refine ⟨_, _, _, _, _,
    prepare_animation_series_eq maxFrames xs ys durationSec fps hlen,
    ?_, ?_, ?_⟩
  · intro i hi
    rw [List.mem_map] at hi
    obtain ⟨frame, _, rfl⟩ := hi
    have h := frameIdx_bounds _ (dataTotalFrames durationSec
      (resolve_effective_fps maxFrames durationSec fps)) hn2 frame
    omega
  · intro extent wPx hPx
    unfold project_points_to_pixels
    rw [List.length_map, List.length_zip, hyx, min_self]
  · intro i hi s hs hsi
    rw [List.mem_map] at hi
    obtain ⟨frame, _, rfl⟩ := hi
    have h := frameIdx_bounds _ (dataTotalFrames durationSec
      (resolve_effective_fps maxFrames durationSec fps)) hn2 frame
    omega

/-- Witness for C10 at a concrete input. -/
theorem frame_indices_in_bounds_witness :
    ∃ xsR ysR fi tf eff,
      prepare_animation_series 2400 [0, 1] [0, 0] 1 30 =
        some (xsR, ysR, fi, tf, eff) ∧
      (∀ i ∈ fi, 0 ≤ i ∧ i < (xsR.length : ℤ)) ∧
      (∀ extent wPx hPx,
        ((project_points_to_pixels xsR ysR extent wPx hPx).length : ℤ) =
          (xsR.length : ℤ)) ∧
      (∀ i ∈ fi, ∀ s : ℤ, 0 ≤ s → s < i →
        0 ≤ s ∧ s < (xsR.length : ℤ) ∧ 0 ≤ s + 1 ∧ s + 1 < (xsR.length : ℤ)) :=
  frame_indices_in_bounds 2400 [0, 1] [0, 0] 1 30 (by norm_num) (by norm_num)
    (by norm_num) (by norm_num)

/-! ### Resampler helper lemmas: segment lengths and cumulative knots -/

theorem segLen_nonneg (p q : ℝ × ℝ) : 0 ≤ segLen p q :=
  Real.sqrt_nonneg _

theorem segLen_eq_zero {p q : ℝ × ℝ} (h : segLen p q = 0) : p = q := by
  unfold segLen at h
  rw [Real.sqrt_eq_zero (by positivity)] at h
  have h1 : (q.1 - p.1) ^ 2 = 0 := by nlinarith [sq_nonneg (q.1 - p.1), sq_nonneg (q.2 - p.2)]
  have h2 : (q.2 - p.2) ^ 2 = 0 := by nlinarith [sq_nonneg (q.1 - p.1), sq_nonneg (q.2 - p.2)]
  have e1 : q.1 = p.1 := by nlinarith [sq_nonneg (q.1 - p.1)]
  have e2 : q.2 = p.2 := by nlinarith [sq_nonneg (q.2 - p.2)]
  exact Prod.ext e1.symm e2.symm

theorem cumFrom_ne_nil (d : ℝ) (p : ℝ × ℝ) (l : List (ℝ × ℝ)) :
    cumFrom d p l ≠ [] := by
  cases l <;> simp [cumFrom]

theorem cumFrom_head (d : ℝ) (p : ℝ × ℝ) (l : List (ℝ × ℝ)) :
    (cumFrom d p l).head? = some (d, p) := by
  cases l <;> rfl

theorem cumFrom_key_le (d : ℝ) (p : ℝ × ℝ) (l : List (ℝ × ℝ)) :
    ∀ k ∈ cumFrom d p l, d ≤ k.1 := by
  induction l generalizing d p with
  | nil =>
    intro k hk
    simp only [cumFrom, List.mem_singleton] at hk
    simp [hk]
  | cons q rest ih =>
    intro k hk
    simp only [cumFrom, List.mem_cons] at hk
    rcases hk with rfl | hk
    · simp
    · have := ih (d + segLen p q) q k hk
      have := segLen_nonneg p q
      linarith

theorem cumFrom_sorted (d : ℝ) (p : ℝ × ℝ) (l : List (ℝ × ℝ)) :
    (cumFrom d p l).Pairwise (fun a b => a.1 ≤ b.1) := by
  induction l generalizing d p with
  | nil => simp [cumFrom]
  | cons q rest ih =>
    rw [show cumFrom d p (q :: rest) = (d, p) :: cumFrom (d + segLen p q) q rest from rfl]
    refine List.Pairwise.cons ?_ (ih (d + segLen p q) q)
    intro k hk
    have h1 := cumFrom_key_le (d + segLen p q) q rest k hk
    have h2 := segLen_nonneg p q
    simpa using by linarith

/-! ### Resampler helper lemmas: adjacent key deduplication -/

theorem dedupAdjKeys_sublist {α : Type} (l : List (ℝ × α)) :
    List.Sublist (dedupAdjKeys l) l := by
  induction l using dedupAdjKeys.induct with
  | case1 => simp [dedupAdjKeys]
  | case2 a => simp [dedupAdjKeys]
  | case3 a b rest heq ih =>
    rw [dedupAdjKeys, if_pos heq]
    exact ih.trans (List.Sublist.cons₂ a (List.sublist_cons_self b rest))
  | case4 a b rest heq ih =>
    rw [dedupAdjKeys, if_neg heq]
    exact List.Sublist.cons₂ a ih

theorem dedupAdjKeys_head {α : Type} (l : List (ℝ × α)) :
    (dedupAdjKeys l).head? = l.head? := by
  induction l using dedupAdjKeys.induct with
  | case1 => simp [dedupAdjKeys]
  | case2 a => simp [dedupAdjKeys]
  | case3 a b rest heq ih =>
    rw [dedupAdjKeys, if_pos heq, ih]
    simp
  | case4 a b rest heq ih =>
    rw [dedupAdjKeys, if_neg heq]
    simp

theorem dedupAdjKeys_ne_nil {α : Type} {l : List (ℝ × α)} (h : l ≠ []) :
    dedupAdjKeys l ≠ [] := by
  intro hc
  have h1 := dedupAdjKeys_head l
  rw [hc] at h1
  cases l with
  | nil => exact h rfl
  | cons a rest => simp at h1

theorem dedupAdjKeys_getLast_key {α : Type} (l : List (ℝ × α)) (dflt : ℝ × α) :
    ((dedupAdjKeys l).getLastD dflt).1 = (l.getLastD dflt).1 := by
  induction l using dedupAdjKeys.induct generalizing dflt with
  | case1 => simp [dedupAdjKeys]
  | case2 a => simp [dedupAdjKeys]
  | case3 a b rest heq ih =>
    rw [dedupAdjKeys, if_pos heq, ih dflt]
    rw [List.getLastD_cons, List.getLastD_cons, List.getLastD_cons]
    cases rest with
    | nil => simpa using heq
    | cons c rest2 =>
      cases hv : (c :: rest2).getLast? with
      | none => exact absurd hv (by simp)
      | some v =>
        rw [List.getLastD_eq_getLast?, List.getLastD_eq_getLast?, hv]
        rfl
  | case4 a b rest heq ih =>
    rw [dedupAdjKeys, if_neg heq]
    rw [List.getLastD_cons, List.getLastD_cons]
    exact ih a

theorem dedupAdjKeys_strict {α : Type} {l : List (ℝ × α)}
    (h : l.Pairwise (fun a b => a.1 ≤ b.1)) :
    (dedupAdjKeys l).Pairwise (fun a b => a.1 < b.1) := by
  induction l using dedupAdjKeys.induct with
  | case1 => simp [dedupAdjKeys]
  | case2 a => simp [dedupAdjKeys]
  | case3 a b rest heq ih =>
    rw [dedupAdjKeys, if_pos heq]
    refine ih (h.sublist ?_)
    exact List.Sublist.cons₂ a (List.sublist_cons_self b rest)
  | case4 a b rest heq ih =>
    rw [dedupAdjKeys, if_neg heq]
    rcases List.pairwise_cons.mp h with ⟨hab, htail⟩
    refine List.Pairwise.cons ?_ (ih htail)
    intro y hy
    have hmem : y ∈ b :: rest := (dedupAdjKeys_sublist (b :: rest)).mem hy
    have hab2 : a.1 < b.1 := lt_of_le_of_ne (hab b (by simp)) heq
    rcases List.mem_cons.mp hmem with rfl | hmem2
    · exact hab2
    · have := (List.pairwise_cons.mp htail).1 y hmem2
      linarith

/-! ### Resampler helper lemmas: last values and interpolation endpoints -/

theorem cumFrom_cons_eq (d : ℝ) (p q : ℝ × ℝ) (rest : List (ℝ × ℝ)) :
    cumFrom d p (q :: rest) = (d, p) :: cumFrom (d + segLen p q) q rest := rfl

theorem getLastD_congr {α : Type} {l : List α} (h : l ≠ []) (d1 d2 : α) :
    l.getLastD d1 = l.getLastD d2 := by
  rw [List.getLastD_eq_getLast?, List.getLastD_eq_getLast?]
  cases hv : l.getLast? with
  | none => exact absurd (List.getLast?_eq_none_iff.mp hv) h
  | some v => rfl

theorem getLastD_mem {α : Type} {l : List α} (h : l ≠ []) (d : α) :
    l.getLastD d ∈ l := by
  induction l generalizing d with
  | nil => exact absurd rfl h
  | cons a rest ih =>
    rw [List.getLastD_cons]
    cases rest with
    | nil => simp
    | cons b rest2 => exact List.mem_cons_of_mem a (ih (by simp) a)

theorem getLast?_eq_some_getLastD {α : Type} {l : List α} (h : l ≠ []) (d : α) :
    l.getLast? = some (l.getLastD d) := by
  rw [List.getLastD_eq_getLast?]
  cases hv : l.getLast? with
  | none => exact absurd (List.getLast?_eq_none_iff.mp hv) h
  | some v => rfl

theorem getLastD_map {α β : Type} (f : α → β) (l : List α) (d : α) :
    (l.map f).getLastD (f d) = f (l.getLastD d) := by
  induction l generalizing d with
  | nil => rfl
  | cons a rest ih =>
    rw [List.map_cons, List.getLastD_cons, List.getLastD_cons, ih]

theorem head?_map {α β : Type} (f : α → β) (l : List α) :
    (l.map f).head? = l.head?.map f := by
  cases l <;> rfl

theorem zip_getLastD (xs ys : List ℝ) (a b : ℝ) (h : xs.length = ys.length) :
    (xs.zip ys).getLastD (a, b) = (xs.getLastD a, ys.getLastD b) := by
  induction xs generalizing ys a b with
  | nil =>
    cases ys with
    | nil => rfl
    | cons y ys2 => simp at h
  | cons x xs2 ih =>
    cases ys with
    | nil => simp at h
    | cons y ys2 =>
      rw [List.zip_cons_cons, List.getLastD_cons, List.getLastD_cons,
        List.getLastD_cons]
      exact ih ys2 x y (by simpa using h)

theorem dedupAdjKeys_cumFrom_getLast_snd (l : List (ℝ × ℝ)) :
    ∀ (d : ℝ) (p : ℝ × ℝ) (dflt : ℝ × (ℝ × ℝ)),
    ((dedupAdjKeys (cumFrom d p l)).getLastD dflt).2 = l.getLastD p := by
  induction l with
  | nil =>
    intro d p dflt
    simp [cumFrom, dedupAdjKeys]
  | cons q rest ih =>
    intro d p dflt
    rw [cumFrom_cons_eq]
    cases rest with
    | nil =>
      rw [show cumFrom (d + segLen p q) q [] = [(d + segLen p q, q)] from rfl]
      by_cases hkey : d = d + segLen p q
      · have hpq : p = q := segLen_eq_zero (by linarith)
        rw [dedupAdjKeys, if_pos hkey]
        simp [dedupAdjKeys, hpq]
      · rw [dedupAdjKeys, if_neg hkey]
        simp [dedupAdjKeys]
    | cons r rest2 =>
      rw [cumFrom_cons_eq]
      by_cases hkey : d = d + segLen p q
      · have hpq : p = q := segLen_eq_zero (by linarith)
        rw [dedupAdjKeys, if_pos hkey]
        have he : ((d, p) : ℝ × (ℝ × ℝ)) = (d + segLen p q, q) := by
          rw [← hkey, hpq]
        rw [he, ← cumFrom_cons_eq, ih]
        exact (List.getLastD_cons p q (r :: rest2)).symm
      · rw [dedupAdjKeys, if_neg hkey]
        rw [List.getLastD_cons, ← cumFrom_cons_eq, ih]
        exact (List.getLastD_cons p q (r :: rest2)).symm

theorem npInterpGo_cons_eq (x xp fp x1 f1 : ℝ) (rest : List (ℝ × ℝ)) :
    npInterpGo x (xp, fp) ((x1, f1) :: rest) =
      if x ≤ x1 then fp + (f1 - fp) * (x - xp) / (x1 - xp)
      else npInterpGo x (x1, f1) rest := rfl

theorem npInterpGo_getLast (x : ℝ) (l : List (ℝ × ℝ)) :
    ∀ (xp fp : ℝ), l ≠ [] → l.Pairwise (fun a b => a.1 < b.1) →
    (∀ y ∈ l, xp < y.1) → x = (l.getLastD (0, 0)).1 →
    npInterpGo x (xp, fp) l = (l.getLastD (0, 0)).2 := by
  induction l with
  | nil =>
    intro xp fp hne
    exact absurd rfl hne
  | cons a rest ih =>
    intro xp fp hne hsort hlt hx
    obtain ⟨x1, f1⟩ := a
    cases rest with
    | nil =>
      rw [List.getLastD_cons] at hx ⊢
      simp only [List.getLastD] at hx ⊢
      rw [npInterpGo_cons_eq, if_pos (le_of_eq hx)]
      have hxp : x1 - xp ≠ 0 := by
        have := hlt (x1, f1) (by simp)
        simp at this
        linarith [this]
      rw [hx, mul_div_assoc, div_self hxp, mul_one]
      ring
    | cons b rest2 =>
      rw [List.getLastD_cons] at hx ⊢
      have hbne : (b :: rest2) ≠ [] := by simp
      have htail : ((b :: rest2).getLastD (x1, f1)) = ((b :: rest2).getLastD (0, 0)) :=
        getLastD_congr hbne _ _
      rw [htail] at hx ⊢
      rcases List.pairwise_cons.mp hsort with ⟨hhead, htail2⟩
      have hx1 : x1 < x := by
        have hmem := getLastD_mem hbne ((0:ℝ), (0:ℝ))
        have := hhead _ hmem
        rw [← hx] at this
        exact this
      rw [npInterpGo_cons_eq, if_neg (not_le.mpr hx1)]
      exact ih x1 f1 hbne htail2 hhead hx

theorem npInterp_cons_eq (x x0 f0 : ℝ) (rest : List (ℝ × ℝ)) :
    npInterp x ((x0, f0) :: rest) =
      if x ≤ x0 then f0 else npInterpGo x (x0, f0) rest := rfl

theorem npInterp_getLast (x : ℝ) (l : List (ℝ × ℝ))
    (hsort : l.Pairwise (fun a b => a.1 < b.1))
    (k0 f0 : ℝ) (hhead : l.head? = some (k0, f0)) (hk : k0 < x)
    (hx : x = (l.getLastD (0, 0)).1) :
    npInterp x l = (l.getLastD (0, 0)).2 := by
  cases l with
  | nil => simp at hhead
  | cons a rest =>
    obtain rfl : a = (k0, f0) := by simpa using hhead
    cases rest with
    | nil =>
      rw [List.getLastD_cons] at hx
      simp only [List.getLastD] at hx
      exact absurd hx.symm (ne_of_lt hk)
    | cons b rest2 =>
      rw [npInterp_cons_eq, if_neg (not_le.mpr hk)]
      rw [List.getLastD_cons] at hx ⊢
      have hbne : (b :: rest2) ≠ [] := by simp
      have htail : ((b :: rest2).getLastD (k0, f0)) = ((b :: rest2).getLastD (0, 0)) :=
        getLastD_congr hbne _ _
      rw [htail] at hx ⊢
      rcases List.pairwise_cons.mp hsort with ⟨hhead2, htail2⟩
      exact npInterpGo_getLast x (b :: rest2) k0 f0 hbne htail2 hhead2 hx

/-! ### Resampler helper lemmas: the deduplicated knot lists -/

theorem routeKnots_cons_eq (p : ℝ × ℝ) (l : List (ℝ × ℝ)) :
    routeKnots (p :: l) = cumFrom 0 p l := rfl

theorem routeTotalDist_cons_eq (x y : ℝ) (xs2 ys2 : List ℝ) :
    routeTotalDist (x :: xs2) (y :: ys2) =
      ((cumFrom 0 (x, y) (xs2.zip ys2)).getLastD (0, (0, 0))).1 := by
  unfold routeTotalDist
  rw [List.zip_cons_cons, routeKnots_cons_eq]

theorem npInterp_zero_knotsSel (p0 : ℝ × ℝ) (L2 : List (ℝ × ℝ))
    (sel : (ℝ × ℝ) → ℝ) :
    npInterp 0 ((dedupAdjKeys (cumFrom 0 p0 L2)).map (fun k => (k.1, sel k.2))) =
      sel p0 := by
  have hhead : ((dedupAdjKeys (cumFrom 0 p0 L2)).map
      (fun k => (k.1, sel k.2))).head? = some (0, sel p0) := by
    rw [head?_map, dedupAdjKeys_head, cumFrom_head]
    rfl
  cases hl : (dedupAdjKeys (cumFrom 0 p0 L2)).map (fun k => (k.1, sel k.2)) with
  | nil => rw [hl] at hhead; simp at hhead
  | cons a rest =>
    rw [hl] at hhead
    obtain rfl : a = (0, sel p0) := by simpa using hhead
    rw [npInterp_cons_eq, if_pos le_rfl]

theorem npInterp_total_knotsSel (p0 : ℝ × ℝ) (L2 : List (ℝ × ℝ))
    (sel : (ℝ × ℝ) → ℝ) (hsel : sel ((0:ℝ), (0:ℝ)) = 0)
    (hpos : 0 < ((cumFrom 0 p0 L2).getLastD (0, (0, 0))).1) :
    npInterp (((cumFrom 0 p0 L2).getLastD (0, (0, 0))).1)
      ((dedupAdjKeys (cumFrom 0 p0 L2)).map (fun k => (k.1, sel k.2))) =
      sel (L2.getLastD p0) := by
  have hsort : ((dedupAdjKeys (cumFrom 0 p0 L2)).map
      (fun k => (k.1, sel k.2))).Pairwise (fun a b => a.1 < b.1) :=
    (dedupAdjKeys_strict (cumFrom_sorted 0 p0 L2)).map _ (fun a b hab => hab)
  have hhead : ((dedupAdjKeys (cumFrom 0 p0 L2)).map
      (fun k => (k.1, sel k.2))).head? = some (0, sel p0) := by
    rw [head?_map, dedupAdjKeys_head, cumFrom_head]
    rfl
  have hdflt : (fun (k : ℝ × (ℝ × ℝ)) => (k.1, sel k.2)) ((0:ℝ), ((0:ℝ), (0:ℝ))) =
      ((0:ℝ), (0:ℝ)) := by
    show ((0:ℝ), sel ((0:ℝ), (0:ℝ))) = ((0:ℝ), (0:ℝ))
    rw [hsel]
  have hlastD : ((dedupAdjKeys (cumFrom 0 p0 L2)).map
      (fun k => (k.1, sel k.2))).getLastD (0, 0) =
      ((fun (k : ℝ × (ℝ × ℝ)) => (k.1, sel k.2))
        ((dedupAdjKeys (cumFrom 0 p0 L2)).getLastD (0, (0, 0)))) := by
    conv_lhs => rw [← hdflt]
    exact getLastD_map _ _ _
  have hkey : (((dedupAdjKeys (cumFrom 0 p0 L2)).getLastD (0, (0, 0))).1) =
      ((cumFrom 0 p0 L2).getLastD (0, (0, 0))).1 :=
    dedupAdjKeys_getLast_key _ _
  have hres := npInterp_getLast (((cumFrom 0 p0 L2).getLastD (0, (0, 0))).1)
    ((dedupAdjKeys (cumFrom 0 p0 L2)).map (fun k => (k.1, sel k.2)))
    hsort 0 (sel p0) hhead hpos (by rw [hlastD]; exact hkey.symm)
  rw [hres, hlastD]
  have hval := dedupAdjKeys_cumFrom_getLast_snd L2 0 p0 (0, (0, 0))
  simp only []
  rw [hval]

theorem linspace_cast_last {n : ℤ} (hn : 2 ≤ n) :
    ((n.toNat - 1 : ℕ) : ℝ) = (n : ℝ) - 1 := by
  have e1 : n.toNat - 1 = (n - 1).toNat := by omega
  rw [e1]
  have h := Int.toNat_of_nonneg (show (0:ℤ) ≤ n - 1 by omega)
  exact_mod_cast congrArg (fun z : ℤ => (z : ℝ)) h

theorem linspace_last_eq (total : ℝ) {n : ℤ} (hn : 2 ≤ n) :
    ((n.toNat - 1 : ℕ) : ℝ) * total / ((n : ℝ) - 1) = total := by
  rw [linspace_cast_last hn]
  have hne : (n : ℝ) - 1 ≠ 0 := by
    have h2 : (2:ℝ) ≤ (n:ℝ) := by exact_mod_cast hn
    intro hc
    linarith
  rw [mul_comm, mul_div_assoc, div_self hne, mul_one]

/-! ### Claim theorem for the route resampler (C4) -/

/-- C4: for equal-length coordinate lists and any target count `n`:
if `n >= len` or `n < 2` the route is returned unchanged; if
`2 <= n < len` and the total arc length is positive, exactly `n` points
are returned whose first and last points equal the original first and
last points; if the total arc length is zero, `n` copies of the first
point are returned. -/
theorem resample_route_spec (xs ys : List ℝ) (n : ℤ)
    (hxy : xs.length = ys.length) :
    (((xs.length : ℤ) ≤ n ∨ n < 2) → resample_route xs ys n = (xs, ys)) ∧
    (2 ≤ n → n < (xs.length : ℤ) → 0 < routeTotalDist xs ys →
      ((resample_route xs ys n).1.length : ℤ) = n ∧
      ((resample_route xs ys n).2.length : ℤ) = n ∧
      (resample_route xs ys n).1.head? = xs.head? ∧
      (resample_route xs ys n).2.head? = ys.head? ∧
      (resample_route xs ys n).1.getLast? = xs.getLast? ∧
      (resample_route xs ys n).2.getLast? = ys.getLast?) ∧
    (2 ≤ n → n < (xs.length : ℤ) → routeTotalDist xs ys = 0 →
      resample_route xs ys n =
        (List.replicate n.toNat (xs.headD 0), List.replicate n.toNat (ys.headD 0))) := by
  refine ⟨?_, ?_, ?_⟩
  · intro hcond
    unfold resample_route
    rw [if_pos (by omega)]
  · intro hn2 hnlt hpos
    have hcond : ¬((xs.length : ℤ) ≤ n ∨ (xs.length : ℤ) < 2 ∨ n < 2) := by omega
    have hm : 0 < n.toNat := by omega
    cases xs with
    | nil =>
      simp only [List.length_nil, Nat.cast_zero] at hnlt
      omega
    | cons x xs2 =>
      cases ys with
      | nil => simp at hxy
      | cons y ys2 =>
        have hz2 : xs2.length = ys2.length := by simpa using hxy
        unfold resample_route
        rw [if_neg hcond, if_neg hpos.ne']
        refine ⟨?_, ?_, ?_, ?_, ?_, ?_⟩
        · rw [List.length_map]
          unfold linspaceN
          rw [List.length_map, List.length_range]
          omega
        · rw [List.length_map]
          unfold linspaceN
          rw [List.length_map, List.length_range]
          omega
        · show ((linspaceN (routeTotalDist (x :: xs2) (y :: ys2)) n).map
              (fun t => npInterp t (knotsX (x :: xs2) (y :: ys2)))).head? =
            (x :: xs2).head?
          unfold linspaceN
          rw [List.map_map, range_map_head _ hm]
          simp only [Function.comp_apply, Nat.cast_zero, zero_mul, zero_div]
          unfold knotsX
          rw [List.zip_cons_cons, routeKnots_cons_eq]
          rw [npInterp_zero_knotsSel (x, y) (xs2.zip ys2) Prod.fst]
          rfl
        · show ((linspaceN (routeTotalDist (x :: xs2) (y :: ys2)) n).map
              (fun t => npInterp t (knotsY (x :: xs2) (y :: ys2)))).head? =
            (y :: ys2).head?
          unfold linspaceN
          rw [List.map_map, range_map_head _ hm]
          simp only [Function.comp_apply, Nat.cast_zero, zero_mul, zero_div]
          unfold knotsY
          rw [List.zip_cons_cons, routeKnots_cons_eq]
          rw [npInterp_zero_knotsSel (x, y) (xs2.zip ys2) Prod.snd]
          rfl
        · show ((linspaceN (routeTotalDist (x :: xs2) (y :: ys2)) n).map
              (fun t => npInterp t (knotsX (x :: xs2) (y :: ys2)))).getLast? =
            (x :: xs2).getLast?
          unfold linspaceN
          rw [List.map_map, range_map_getLast _ hm]
          simp only [Function.comp_apply]
          rw [linspace_last_eq (routeTotalDist (x :: xs2) (y :: ys2)) hn2]
          unfold knotsX
          rw [List.zip_cons_cons, routeKnots_cons_eq]
          rw [routeTotalDist_cons_eq] at hpos ⊢
          rw [npInterp_total_knotsSel (x, y) (xs2.zip ys2) Prod.fst rfl hpos]
          rw [zip_getLastD xs2 ys2 x y hz2]
          rw [getLast?_eq_some_getLastD (List.cons_ne_nil x xs2) x,
            List.getLastD_cons]
        · show ((linspaceN (routeTotalDist (x :: xs2) (y :: ys2)) n).map
              (fun t => npInterp t (knotsY (x :: xs2) (y :: ys2)))).getLast? =
            (y :: ys2).getLast?
          unfold linspaceN
          rw [List.map_map, range_map_getLast _ hm]
          simp only [Function.comp_apply]
          rw [linspace_last_eq (routeTotalDist (x :: xs2) (y :: ys2)) hn2]
          unfold knotsY
          rw [List.zip_cons_cons, routeKnots_cons_eq]
          rw [routeTotalDist_cons_eq] at hpos ⊢
          rw [npInterp_total_knotsSel (x, y) (xs2.zip ys2) Prod.snd rfl hpos]
          rw [zip_getLastD xs2 ys2 x y hz2]
          rw [getLast?_eq_some_getLastD (List.cons_ne_nil y ys2) y,
            List.getLastD_cons]
  · intro hn2 hnlt h0
    unfold resample_route
    rw [if_neg (by omega), if_pos h0]

/-- Witness for C4: a 3-point route with positive arc length (resampled to
2 points), the unchanged case (target 5), and a degenerate
repeated-point route with zero arc length. -/
theorem resample_route_spec_witness :
    resample_route [0, 1, 2] [0, 0, 0] 5 = ([0, 1, 2], [0, 0, 0]) ∧
    (((resample_route [0, 1, 2] [0, 0, 0] 2).1.length : ℤ) = 2 ∧
      ((resample_route [0, 1, 2] [0, 0, 0] 2).2.length : ℤ) = 2 ∧
      (resample_route [0, 1, 2] [0, 0, 0] 2).1.head? = ([0, 1, 2] : List ℝ).head? ∧
      (resample_route [0, 1, 2] [0, 0, 0] 2).2.head? = ([0, 0, 0] : List ℝ).head? ∧
      (resample_route [0, 1, 2] [0, 0, 0] 2).1.getLast? = ([0, 1, 2] : List ℝ).getLast? ∧
      (resample_route [0, 1, 2] [0, 0, 0] 2).2.getLast? = ([0, 0, 0] : List ℝ).getLast?) ∧
    resample_route [5, 5, 5] [1, 1, 1] 2 =
      (List.replicate (2:ℤ).toNat (([5, 5, 5] : List ℝ).headD 0),
       List.replicate (2:ℤ).toNat (([1, 1, 1] : List ℝ).headD 0)) := by
  have htot : 0 < routeTotalDist [0, 1, 2] [0, 0, 0] := by
    have h2 : routeTotalDist [0, 1, 2] [0, 0, 0] = 2 := by
      unfold routeTotalDist
      norm_num [routeKnots, cumFrom, segLen, List.zip_cons_cons,
        List.getLastD_cons, Real.sqrt_one]
    rw [h2]
    norm_num
  have hzero : routeTotalDist [5, 5, 5] [1, 1, 1] = 0 := by
    unfold routeTotalDist
    norm_num [routeKnots, cumFrom, segLen, List.zip_cons_cons,
      List.getLastD_cons, Real.sqrt_zero]
  refine ⟨(resample_route_spec [0, 1, 2] [0, 0, 0] 5 (by norm_num)).1
      (Or.inl (by norm_num)),
    (resample_route_spec [0, 1, 2] [0, 0, 0] 2 (by norm_num)).2.1
      (by norm_num) (by norm_num) htot,
    (resample_route_spec [5, 5, 5] [1, 1, 1] 2 (by norm_num)).2.2
      (by norm_num) (by norm_num) hzero⟩

/-! ### Claim theorem for the Mercator latitude clamp (C8) -/

/-- C8: the latitude value reaching the log/tan step of
`latlon_to_web_mercator` is the clamp `mercClampRad`, which always lies in
`[-radians(85.05112878), radians(85.05112878)]`, and the argument of the
logarithm, `tan(pi/4 + clamped/2)`, is strictly positive for every real
latitude input. -/
theorem mercator_clamp_safe (lat : ℝ) :
    radians (-MAX_MERCATOR_LAT) ≤ mercClampRad lat ∧
    mercClampRad lat ≤ radians MAX_MERCATOR_LAT ∧
    0 < Real.tan (Real.pi / 4 + mercClampRad lat / 2) ∧
    (∀ lats lons : List ℝ,
      (latlon_to_web_mercator lats lons).2 = (lats.zip lons).map fun pl =>
        EARTH_RADIUS_METERS * Real.log
          (Real.tan (Real.pi / 4 + mercClampRad pl.1 / 2))) := by
  have hπ := Real.pi_pos
  have hneg : radians (-MAX_MERCATOR_LAT) = -radians MAX_MERCATOR_LAT := by
    unfold radians
    ring
  have hmpos : 0 < radians MAX_MERCATOR_LAT := by
    unfold radians MAX_MERCATOR_LAT
    positivity
  have hmlt : radians MAX_MERCATOR_LAT < Real.pi / 2 := by
    unfold radians MAX_MERCATOR_LAT
    nlinarith
  have hlow : radians (-MAX_MERCATOR_LAT) ≤ mercClampRad lat :=
    le_max_right _ _
  have hhigh : mercClampRad lat ≤ radians MAX_MERCATOR_LAT := by
    unfold mercClampRad
    rw [hneg]
    refine max_le (min_le_right _ _) (by linarith)
  refine ⟨hlow, hhigh, ?_, fun lats lons => rfl⟩
  rw [hneg] at hlow
  refine Real.tan_pos_of_pos_of_lt_pi_div_two (by linarith) (by linarith)

/-! ### Claim theorem for the pixel round-trip (C7) -/

/-- C7: for every zoom and every `(lon, lat)` with `lon` in `[-180, 180]`
and `|lat| < 90`, `pixel_to_lonlat` applied to `lonlat_to_pixel` at the
same zoom recovers `(lon, lat)` exactly over the real-valued embedding. -/
theorem pixel_roundtrip (lon lat : ℝ) (zoom : ℕ)
    (h1 : -180 ≤ lon) (h2 : lon ≤ 180) (h3 : -90 < lat) (h4 : lat < 90) :
    pixel_to_lonlat (lonlat_to_pixel lon lat zoom).1
      (lonlat_to_pixel lon lat zoom).2 zoom = (lon, lat) := by
  have hπ := Real.pi_pos
  have hπne : Real.pi ≠ 0 := ne_of_gt hπ
  have hn : (0:ℝ) < 2 ^ zoom := by positivity
  have hφ1 : -(Real.pi / 2) < radians lat := by
    unfold radians
    nlinarith [mul_pos (show (0:ℝ) < lat + 90 by linarith) Real.pi_pos]
  have hφ2 : radians lat < Real.pi / 2 := by
    unfold radians
    nlinarith [mul_pos (show (0:ℝ) < 90 - lat by linarith) Real.pi_pos]
  have hcos : 0 < Real.cos (radians lat) :=
    Real.cos_pos_of_mem_Ioo ⟨hφ1, hφ2⟩
  have hsin : -1 < Real.sin (radians lat) := by
    have hs := Real.strictMonoOn_sin
      (Set.mem_Icc.mpr ⟨le_refl _, by linarith⟩)
      (Set.mem_Icc.mpr ⟨by linarith, by linarith⟩) hφ1
    rw [Real.sin_neg, Real.sin_pi_div_two] at hs
    exact hs
  have hT : Real.tan (radians lat) + (Real.cos (radians lat))⁻¹ =
      (Real.sin (radians lat) + 1) / Real.cos (radians lat) := by
    rw [Real.tan_eq_sin_div_cos]
    field_simp
  have hTpos : 0 < (Real.sin (radians lat) + 1) / Real.cos (radians lat) :=
    div_pos (by linarith) hcos
  have hsinh : Real.sinh (Real.log
      ((Real.sin (radians lat) + 1) / Real.cos (radians lat))) =
      Real.tan (radians lat) := by
    rw [Real.sinh_eq, Real.exp_log hTpos, Real.exp_neg, Real.exp_log hTpos,
      Real.tan_eq_sin_div_cos]
    have hc := hcos.ne'
    have hs1 : Real.sin (radians lat) + 1 ≠ 0 := by linarith
    field_simp
    nlinarith [Real.sin_sq_add_cos_sq (radians lat)]
  simp only [lonlat_to_pixel, pixel_to_lonlat, Prod.mk.injEq]
  constructor
  · field_simp
    ring
  · have key : Real.pi * (1 - 2 * ((1 - Real.log (Real.tan (radians lat) +
        (Real.cos (radians lat))⁻¹) / Real.pi) / 2 * (2:ℝ) ^ zoom * 256) /
        (256 * (2:ℝ) ^ zoom)) = Real.log (Real.tan (radians lat) +
        (Real.cos (radians lat))⁻¹) := by
      field_simp
      ring
    rw [key, hT, hsinh, Real.arctan_tan hφ1 hφ2]
    unfold degrees radians
    field_simp

/-- Witness for C7 at `lon = 45`, `lat = 30`, zoom 3. -/
theorem pixel_roundtrip_witness :
    pixel_to_lonlat (lonlat_to_pixel 45 30 3).1 (lonlat_to_pixel 45 30 3).2 3 =
      (45, 30) :=
  pixel_roundtrip 45 30 3 (by norm_num) (by norm_num) (by norm_num) (by norm_num)

/-! ### Zoom-selector helper lemmas (C6) -/

theorem radians_mem_Ioo {lat : ℝ} (h1 : -90 < lat) (h2 : lat < 90) :
    radians lat ∈ Set.Ioo (-(Real.pi / 2)) (Real.pi / 2) := by
  unfold radians
  constructor
  · nlinarith [mul_pos (show (0:ℝ) < lat + 90 by linarith) Real.pi_pos]
  · nlinarith [mul_pos (show (0:ℝ) < 90 - lat by linarith) Real.pi_pos]

theorem radians_le {a b : ℝ} (h : a ≤ b) : radians a ≤ radians b := by
  unfold radians
  have hπ := Real.pi_pos
  nlinarith

theorem neg_one_lt_sin_of_mem {t : ℝ}
    (ht : t ∈ Set.Ioo (-(Real.pi / 2)) (Real.pi / 2)) : -1 < Real.sin t := by
  have hs := Real.strictMonoOn_sin
    (Set.mem_Icc.mpr ⟨le_refl _, by linarith [Real.pi_pos]⟩)
    (Set.mem_Icc.mpr ⟨le_of_lt ht.1, le_of_lt ht.2⟩) ht.1
  rw [Real.sin_neg, Real.sin_pi_div_two] at hs
  exact hs

theorem tanSec_hasDerivAt {t : ℝ} (hcos : Real.cos t ≠ 0) :
    HasDerivAt (fun u => Real.tan u + (Real.cos u)⁻¹)
      ((1 + Real.sin t) / Real.cos t ^ 2) t := by
  have h1 := Real.hasDerivAt_tan hcos
  have h2 := (Real.hasDerivAt_cos t).inv hcos
  have h3 := h1.add h2
  convert h3 using 1
  field_simp

theorem tanSec_pos {t : ℝ}
    (ht : t ∈ Set.Ioo (-(Real.pi / 2)) (Real.pi / 2)) :
    0 < Real.tan t + (Real.cos t)⁻¹ := by
  have hcos := Real.cos_pos_of_mem_Ioo ht
  have hsin := neg_one_lt_sin_of_mem ht
  have he : Real.tan t + (Real.cos t)⁻¹ = (Real.sin t + 1) / Real.cos t := by
    rw [Real.tan_eq_sin_div_cos]
    field_simp
  rw [he]
  exact div_pos (by linarith) hcos

theorem tanSec_strictMonoOn :
    StrictMonoOn (fun t => Real.tan t + (Real.cos t)⁻¹)
      (Set.Ioo (-(Real.pi / 2)) (Real.pi / 2)) := by
  refine strictMonoOn_of_deriv_pos (convex_Ioo _ _) ?_ ?_
  · intro t ht
    exact (tanSec_hasDerivAt
      (Real.cos_pos_of_mem_Ioo ht).ne').continuousAt.continuousWithinAt
  · intro t ht
    rw [interior_Ioo] at ht
    have hcos := Real.cos_pos_of_mem_Ioo ht
    have hsin := neg_one_lt_sin_of_mem ht
    rw [(tanSec_hasDerivAt hcos.ne').deriv]
    exact div_pos (by linarith) (pow_pos hcos 2)

theorem pixelY_le (lonA lonB lat1 lat2 : ℝ) (zoom : ℕ) (h1 : -90 < lat1)
    (h12 : lat1 ≤ lat2) (h2 : lat2 < 90) :
    (lonlat_to_pixel lonA lat2 zoom).2 ≤ (lonlat_to_pixel lonB lat1 zoom).2 := by
  have hm1 := radians_mem_Ioo h1 (lt_of_le_of_lt h12 h2)
  have hm2 := radians_mem_Ioo (lt_of_lt_of_le h1 h12) h2
  have hmono : Real.tan (radians lat1) + (Real.cos (radians lat1))⁻¹ ≤
      Real.tan (radians lat2) + (Real.cos (radians lat2))⁻¹ :=
    tanSec_strictMonoOn.monotoneOn hm1 hm2 (radians_le h12)
  have hlog : Real.log (Real.tan (radians lat1) + (Real.cos (radians lat1))⁻¹) ≤
      Real.log (Real.tan (radians lat2) + (Real.cos (radians lat2))⁻¹) :=
    Real.log_le_log (tanSec_pos hm1) hmono
  simp only [lonlat_to_pixel]
  have hπ := Real.pi_pos
  have hdiv := (div_le_div_right hπ).mpr hlog
  have hn : (0:ℝ) ≤ (2:ℝ) ^ zoom := by positivity
  have hstep : (1 - Real.log (Real.tan (radians lat2) +
      (Real.cos (radians lat2))⁻¹) / Real.pi) / 2 ≤
      (1 - Real.log (Real.tan (radians lat1) +
      (Real.cos (radians lat1))⁻¹) / Real.pi) / 2 := by linarith
  have h256 : (0:ℝ) ≤ 256 := by norm_num
  exact mul_le_mul_of_nonneg_right
    (mul_le_mul_of_nonneg_right hstep hn) h256

theorem pixelX_sub (lon1 lon2 latA latB : ℝ) (zoom : ℕ) :
    (lonlat_to_pixel lon2 latA zoom).1 - (lonlat_to_pixel lon1 latB zoom).1 =
      (lon2 - lon1) * ((2:ℝ) ^ zoom) * 256 / 360 := by
  simp only [lonlat_to_pixel]
  ring

theorem zoomFits_of_zoomFits
    (minLat1 maxLat1 minLon1 maxLon1 minLat2 maxLat2 minLon2 maxLon2 : ℝ)
    (w1 h1 w2 h2 : ℤ)
    (hlat0 : -90 < minLat2) (hlatA : minLat2 ≤ minLat1)
    (hlatB : minLat1 ≤ maxLat1) (hlatC : maxLat1 ≤ maxLat2) (hlat9 : maxLat2 < 90)
    (hlonA : minLon2 ≤ minLon1) (hlonB : minLon1 ≤ maxLon1) (hlonC : maxLon1 ≤ maxLon2)
    (hw : w2 ≤ w1) (hh : h2 ≤ h1) (z : ℕ)
    (hz : zoomFits minLat2 maxLat2 minLon2 maxLon2 w2 h2 z) :
    zoomFits minLat1 maxLat1 minLon1 maxLon1 w1 h1 z := by
  obtain ⟨hx, hy⟩ := hz
  have hn : (0:ℝ) ≤ (2:ℝ) ^ z := by positivity
  have hwr : (w2 : ℝ) ≤ (w1 : ℝ) := by exact_mod_cast hw
  have hhr : (h2 : ℝ) ≤ (h1 : ℝ) := by exact_mod_cast hh
  constructor
  · rw [pixelX_sub] at hx ⊢
    rw [abs_of_nonneg (by
      have hd : (0:ℝ) ≤ maxLon2 - minLon2 := by linarith
      positivity)] at hx
    rw [abs_of_nonneg (by
      have : (0:ℝ) ≤ maxLon1 - minLon1 := by linarith
      positivity)]
    have hmul : (maxLon1 - minLon1) * ((2:ℝ) ^ z) * 256 / 360 ≤
        (maxLon2 - minLon2) * ((2:ℝ) ^ z) * 256 / 360 := by
      have : (maxLon1 - minLon1) ≤ (maxLon2 - minLon2) := by linarith
      have h1 := mul_le_mul_of_nonneg_right
        (mul_le_mul_of_nonneg_right this hn) (show (0:ℝ) ≤ 256 by norm_num)
      linarith
    linarith
  · have hy11 : (lonlat_to_pixel minLon1 maxLat1 z).2 ≤
        (lonlat_to_pixel maxLon1 minLat1 z).2 :=
      pixelY_le _ _ _ _ z (by linarith) hlatB (by linarith)
    have hy22 : (lonlat_to_pixel minLon2 maxLat2 z).2 ≤
        (lonlat_to_pixel maxLon2 minLat2 z).2 :=
      pixelY_le _ _ _ _ z hlat0 (by linarith) hlat9
    rw [abs_sub_comm, abs_of_nonneg (by linarith)] at hy
    rw [abs_sub_comm, abs_of_nonneg (by linarith)]
    have hyA : (lonlat_to_pixel maxLon1 minLat1 z).2 ≤
        (lonlat_to_pixel maxLon2 minLat2 z).2 :=
      pixelY_le _ _ _ _ z hlat0 hlatA (by linarith)
    have hyB : (lonlat_to_pixel minLon2 maxLat2 z).2 ≤
        (lonlat_to_pixel minLon1 maxLat1 z).2 :=
      pixelY_le _ _ _ _ z (by linarith) hlatC hlat9
    linarith

theorem chooseZoomAux_le (fits : ℕ → Prop) (m : ℕ) :
    chooseZoomAux fits m ≤ m := by
  induction m with
  | zero => simp [chooseZoomAux]
  | succ k ih =>
    rw [chooseZoomAux]
    split_ifs
    · exact le_refl _
    · exact le_trans ih (Nat.le_succ k)

theorem chooseZoomAux_mono (P Q : ℕ → Prop) (hPQ : ∀ z, P z → Q z) (m : ℕ) :
    chooseZoomAux P m ≤ chooseZoomAux Q m := by
  induction m with
  | zero => simp [chooseZoomAux]
  | succ k ih =>
    rw [chooseZoomAux, chooseZoomAux]
    by_cases hp : P (k + 1)
    · rw [if_pos hp, if_pos (hPQ _ hp)]
    · rw [if_neg hp]
      by_cases hq : Q (k + 1)
      · rw [if_pos hq]
        exact le_trans (chooseZoomAux_le P k) (Nat.le_succ k)
      · rw [if_neg hq]
        exact ih

/-! ### Claim theorem for zoom-selection monotonicity (C6) -/

/-- C6: `choose_zoom_for_bounds` is monotonic: widening the bounding box
(bbox 2 contains bbox 1) and/or shrinking the canvas never increases the
chosen zoom, for latitudes within the valid open range. -/
theorem choose_zoom_monotone
    (minLat1 maxLat1 minLon1 maxLon1 minLat2 maxLat2 minLon2 maxLon2 : ℝ)
    (w1 h1 w2 h2 : ℤ) (maxZoom : ℕ)
    (hlat0 : -90 < minLat2) (hlatA : minLat2 ≤ minLat1)
    (hlatB : minLat1 ≤ maxLat1) (hlatC : maxLat1 ≤ maxLat2) (hlat9 : maxLat2 < 90)
    (hlonA : minLon2 ≤ minLon1) (hlonB : minLon1 ≤ maxLon1) (hlonC : maxLon1 ≤ maxLon2)
    (hw : w2 ≤ w1) (hh : h2 ≤ h1) :
    choose_zoom_for_bounds minLat2 maxLat2 minLon2 maxLon2 w2 h2 maxZoom ≤
      choose_zoom_for_bounds minLat1 maxLat1 minLon1 maxLon1 w1 h1 maxZoom := by
  unfold choose_zoom_for_bounds
  exact chooseZoomAux_mono _ _
    (fun z hz => zoomFits_of_zoomFits minLat1 maxLat1 minLon1 maxLon1
      minLat2 maxLat2 minLon2 maxLon2 w1 h1 w2 h2 hlat0 hlatA hlatB hlatC
      hlat9 hlonA hlonB hlonC hw hh z hz) maxZoom

/-- Witness for C6 at concrete nested boxes and canvas sizes. -/
theorem choose_zoom_monotone_witness :
    choose_zoom_for_bounds (-1) 2 (-1) 2 500 500 18 ≤
      choose_zoom_for_bounds 0 1 0 1 600 600 18 :=
  choose_zoom_monotone 0 1 0 1 (-1) 2 (-1) 2 600 600 500 500 18
    (by norm_num) (by norm_num) (by norm_num) (by norm_num) (by norm_num)
    (by norm_num) (by norm_num) (by norm_num) (by norm_num) (by norm_num)

/-! ### Resolution-parser helper lemmas (C9) -/

theorem splitOnce_not_mem {sep : Char} {l : List Char} (h : sep ∉ l) :
    splitOnce sep l = none := by
  induction l with
  | nil => rfl
  | cons c rest ih =>
    simp only [splitOnce]
    rw [if_neg (fun hc : c = sep => h (by rw [← hc]; exact List.mem_cons_self c rest))]
    rw [ih (fun hm => h (List.mem_cons_of_mem c hm))]

theorem splitOnce_append {sep : Char} (d2 : List Char) :
    ∀ {d1 : List Char}, sep ∉ d1 →
    splitOnce sep (d1 ++ sep :: d2) = some (d1, d2) := by
  intro d1
  induction d1 with
  | nil =>
    intro _
    simp [splitOnce]
  | cons c rest ih =>
    intro h
    have hcs : ¬(c = sep) :=
      fun hc => h (by rw [← hc]; exact List.mem_cons_self c rest)
    simp only [List.cons_append, splitOnce]
    rw [if_neg hcs]
    have ih2 : splitOnce sep (rest.append (sep :: d2)) = some (rest, d2) :=
      ih (fun hm => h (List.mem_cons_of_mem c hm))
    rw [ih2]

theorem map_lower_id_of : ∀ {l : List Char},
    (∀ c ∈ l, pyLowerChar c = c) → l.map pyLowerChar = l := by
  intro l
  induction l with
  | nil => intro _; rfl
  | cons c rest ih =>
    intro h
    rw [List.map_cons, h c (List.mem_cons_self c rest),
      ih (fun a ha => h a (List.mem_cons_of_mem c ha))]

theorem filter_space_id_of : ∀ {l : List Char},
    (∀ c ∈ l, c ≠ ' ') → l.filter (· ≠ ' ') = l := by
  intro l
  induction l with
  | nil => intro _; rfl
  | cons c rest ih =>
    intro h
    rw [List.filter_cons_of_pos
      (by simpa using h c (List.mem_cons_self c rest)),
      ih (fun a ha => h a (List.mem_cons_of_mem c ha))]

theorem normalizeRes_id {l : List Char}
    (h : ∀ c ∈ l, pyLowerChar c = c ∧ c ≠ ' ') : normalizeRes l = l := by
  unfold normalizeRes
  rw [map_lower_id_of (fun c hc => (h c hc).1),
    filter_space_id_of (fun c hc => (h c hc).2)]

theorem digit_facts {c : Char} (h : isDigitC c = true) :
    pyLowerChar c = c ∧ c ≠ ' ' ∧ c ≠ 'x' ∧ c ≠ 'X' ∧ c ≠ ',' ∧ c ≠ '×' := by
  simp only [isDigitC, decide_eq_true_eq] at h
  obtain ⟨h1, h2⟩ := h
  refine ⟨?_, ?_, ?_, ?_, ?_, ?_⟩
  · unfold pyLowerChar
    rw [if_neg (by omega)]
  · intro hc
    rw [hc] at h1
    exact absurd h1 (by decide)
  · intro hc
    rw [hc] at h2
    exact absurd h2 (by decide)
  · intro hc
    rw [hc] at h2
    exact absurd h2 (by decide)
  · intro hc
    rw [hc] at h1
    exact absurd h1 (by decide)
  · intro hc
    rw [hc] at h2
    exact absurd h2 (by decide)

/-! ### Claim theorems for the resolution parser (C9) -/

/-- C9 counterexample: the input `640×480` uses the separator `'×'`,
which is neither `'x'` nor `','`, yet `parse_resolution` accepts it and
returns `(640, 480)` instead of raising a format error. -/
theorem parse_resolution_times_counterexample :
    parse_resolution ['6', '4', '0', '×', '4', '8', '0'] = some (640, 480) ∧
    ¬('×' = 'x') ∧ ¬('×' = ',') := by
  refine ⟨?_, by decide, by decide⟩
  decide

/-- C9 (amended): `parse_resolution` accepts exactly the strings of shape
`{w}x{h}`, `{w},{h}` or `{w}×{h}` (case-insensitive, spaces removed)
where both sides parse as Python integers, returning the pair; an input
whose normalized form contains none of the three separators is a format
error (`none`). -/
theorem parse_resolution_spec (s d1 d2 : List Char) (v1 v2 : ℤ) :
    (('x' ∉ normalizeRes s ∧ ',' ∉ normalizeRes s ∧ '×' ∉ normalizeRes s) →
      parse_resolution s = none) ∧
    parse_resolution (' ' :: s) = parse_resolution s ∧
    ((∀ c ∈ d1, isDigitC c = true) → (∀ c ∈ d2, isDigitC c = true) →
      pyInt d1 = some v1 → pyInt d2 = some v2 →
      (parse_resolution (d1 ++ 'x' :: d2) = some (v1, v2) ∧
       parse_resolution (d1 ++ 'X' :: d2) = some (v1, v2) ∧
       parse_resolution (d1 ++ ',' :: d2) = some (v1, v2) ∧
       parse_resolution (d1 ++ '×' :: d2) = some (v1, v2))) := by
  refine ⟨?_, ?_, ?_⟩
  · intro ⟨hx, hc, ht⟩
    unfold parse_resolution
    rw [splitOnce_not_mem hx, splitOnce_not_mem hc, splitOnce_not_mem ht]
  · have hsp : normalizeRes (' ' :: s) = normalizeRes s := by
      unfold normalizeRes
      rw [List.map_cons, show pyLowerChar ' ' = ' ' from by decide,
        List.filter_cons_of_neg (by simp)]
    unfold parse_resolution
    rw [hsp]
  · intro hd1 hd2 hv1 hv2
    have hfacts1 := fun c hc => digit_facts (hd1 c hc)
    have hfacts2 := fun c hc => digit_facts (hd2 c hc)
    have hnotmem : ∀ sep : Char, sep ≠ ' ' → pyLowerChar sep = sep →
        (∀ c ∈ d1, c ≠ sep) → (∀ c ∈ d2, c ≠ sep) →
        normalizeRes (d1 ++ sep :: d2) = d1 ++ sep :: d2 := by
      intro sep hsp hlow h1 h2
      refine normalizeRes_id ?_
      intro c hc
      rcases List.mem_append.mp hc with hc1 | hc2
      · exact ⟨(hfacts1 c hc1).1, (hfacts1 c hc1).2.1⟩
      · rcases List.mem_cons.mp hc2 with rfl | hc3
        · exact ⟨hlow, hsp⟩
        · exact ⟨(hfacts2 c hc3).1, (hfacts2 c hc3).2.1⟩
    have hx1 : ∀ c ∈ d1, c ≠ 'x' := fun c hc => (hfacts1 c hc).2.2.1
    have hx2 : ∀ c ∈ d2, c ≠ 'x' := fun c hc => (hfacts2 c hc).2.2.1
    have hc1 : ∀ c ∈ d1, c ≠ ',' := fun c hc => (hfacts1 c hc).2.2.2.2.1
    have hc2 : ∀ c ∈ d2, c ≠ ',' := fun c hc => (hfacts2 c hc).2.2.2.2.1
    have ht1 : ∀ c ∈ d1, c ≠ '×' := fun c hc => (hfacts1 c hc).2.2.2.2.2
    have ht2 : ∀ c ∈ d2, c ≠ '×' := fun c hc => (hfacts2 c hc).2.2.2.2.2
    have hxd1 : 'x' ∉ d1 := fun hm => hx1 _ hm rfl
    have htry : tryParsePair (d1, d2) = some (v1, v2) := by
      unfold tryParsePair
      rw [show (d1, d2).1 = d1 from rfl, show (d1, d2).2 = d2 from rfl,
        hv1, hv2]
    refine ⟨?_, ?_, ?_, ?_⟩
    · unfold parse_resolution
      rw [hnotmem 'x' (by decide) (by decide) hx1 hx2,
        splitOnce_append d2 hxd1]
      exact htry
    · have hnormX : normalizeRes (d1 ++ 'X' :: d2) = d1 ++ 'x' :: d2 := by
        unfold normalizeRes
        rw [List.map_append, List.map_cons,
          map_lower_id_of (fun c hc => (hfacts1 c hc).1),
          map_lower_id_of (fun c hc => (hfacts2 c hc).1),
          show pyLowerChar 'X' = 'x' from by decide]
        refine filter_space_id_of ?_
        intro c hc
        rcases List.mem_append.mp hc with hcA | hcB
        · exact (hfacts1 c hcA).2.1
        · rcases List.mem_cons.mp hcB with rfl | hcC
          · decide
          · exact (hfacts2 c hcC).2.1
      unfold parse_resolution
      rw [hnormX, splitOnce_append d2 hxd1]
      exact htry
    · have hxm : 'x' ∉ d1 ++ ',' :: d2 := by
        intro hm
        rcases List.mem_append.mp hm with hmA | hmB
        · exact hx1 _ hmA rfl
        · rcases List.mem_cons.mp hmB with hmc | hmd
          · exact absurd hmc.symm (by decide)
          · exact hx2 _ hmd rfl
      unfold parse_resolution
      rw [hnotmem ',' (by decide) (by decide) hc1 hc2,
        splitOnce_not_mem hxm,
        splitOnce_append d2 (fun hm => hc1 _ hm rfl)]
      exact htry
    · have hxm : 'x' ∉ d1 ++ '×' :: d2 := by
        intro hm
        rcases List.mem_append.mp hm with hmA | hmB
        · exact hx1 _ hmA rfl
        · rcases List.mem_cons.mp hmB with hmc | hmd
          · exact absurd hmc.symm (by decide)
          · exact hx2 _ hmd rfl
      have hcm : ',' ∉ d1 ++ '×' :: d2 := by
        intro hm
        rcases List.mem_append.mp hm with hmA | hmB
        · exact hc1 _ hmA rfl
        · rcases List.mem_cons.mp hmB with hmc | hmd
          · exact absurd hmc.symm (by decide)
          · exact hc2 _ hmd rfl
      unfold parse_resolution
      rw [hnotmem '×' (by decide) (by decide) ht1 ht2,
        splitOnce_not_mem hxm, splitOnce_not_mem hcm,
        splitOnce_append d2 (fun hm => ht1 _ hm rfl)]
      exact htry

/-- Witness for the amended C9 theorem at concrete inputs. -/
theorem parse_resolution_spec_witness :
    parse_resolution ['a', 'b'] = none ∧
    parse_resolution (['1', '2'] ++ 'x' :: ['3']) = some (12, 3) ∧
    parse_resolution (['1', '2'] ++ '×' :: ['3']) = some (12, 3) :=
  ⟨(parse_resolution_spec ['a', 'b'] ['1', '2'] ['3'] 12 3).1
      (by refine ⟨?_, ?_, ?_⟩ <;> decide),
    ((parse_resolution_spec ['a', 'b'] ['1', '2'] ['3'] 12 3).2.2
      (by decide) (by decide) (by decide) (by decide)).1,
    ((parse_resolution_spec ['a', 'b'] ['1', '2'] ['3'] 12 3).2.2
      (by decide) (by decide) (by decide) (by decide)).2.2.2⟩

/-! ### Tile-mosaic helper lemmas (C5) -/

theorem tileImgOf_size (fetchTile : ℤ → ℤ → Option Img)
    (htiles : ∀ x y img, fetchTile x y = some img → img.w = 256 ∧ img.h = 256)
    (p : ℤ × ℤ) :
    (tileImgOf fetchTile p).w = 256 ∧ (tileImgOf fetchTile p).h = 256 := by
  unfold tileImgOf
  cases hf : fetchTile p.1 p.2 with
  | none => exact ⟨rfl, rfl⟩
  | some ti => exact htiles _ _ _ hf

theorem tileList_mem (minX maxX minY maxY tx ty : ℤ)
    (hx1 : minX ≤ tx) (hx2 : tx ≤ maxX) (hy1 : minY ≤ ty) (hy2 : ty ≤ maxY) :
    (tx, ty) ∈ tileList minX maxX minY maxY := by
  unfold tileList
  rw [List.mem_flatMap]
  refine ⟨(tx - minX).toNat, ?_, ?_⟩
  · rw [List.mem_range]
    omega
  · rw [List.mem_map]
    refine ⟨(ty - minY).toNat, ?_, ?_⟩
    · rw [List.mem_range]
      omega
    · rw [Prod.mk.injEq]
      constructor <;> omega

theorem tileList_mem_bounds {minX maxX minY maxY : ℤ} {p : ℤ × ℤ}
    (hp : p ∈ tileList minX maxX minY maxY) :
    minX ≤ p.1 ∧ p.1 ≤ maxX ∧ minY ≤ p.2 ∧ p.2 ≤ maxY := by
  unfold tileList at hp
  rw [List.mem_flatMap] at hp
  obtain ⟨dx, hdx, hp2⟩ := hp
  rw [List.mem_range] at hdx
  rw [List.mem_map] at hp2
  obtain ⟨dy, hdy, rfl⟩ := hp2
  rw [List.mem_range] at hdy
  refine ⟨?_, ?_, ?_, ?_⟩ <;> simp <;> omega

theorem imgPaste_pix_in (dst src : Img) (ox oy i j : ℤ)
    (hin : ox ≤ i ∧ i < ox + src.w ∧ oy ≤ j ∧ j < oy + src.h) :
    (imgPaste dst src ox oy).pix i j = src.pix (i - ox) (j - oy) := by
  unfold imgPaste
  exact if_pos hin

theorem imgPaste_pix_out (dst src : Img) (ox oy i j : ℤ)
    (hout : ¬(ox ≤ i ∧ i < ox + src.w ∧ oy ≤ j ∧ j < oy + src.h)) :
    (imgPaste dst src ox oy).pix i j = dst.pix i j := by
  unfold imgPaste
  exact if_neg hout

theorem foldl_stitch_pix_out (fetchTile : ℤ → ℤ → Option Img) (minX minY i j : ℤ) :
    ∀ (l : List (ℤ × ℤ)) (base : Img),
    (∀ p ∈ l, ¬((p.1 - minX) * 256 ≤ i ∧
        i < (p.1 - minX) * 256 + (tileImgOf fetchTile p).w ∧
        (p.2 - minY) * 256 ≤ j ∧
        j < (p.2 - minY) * 256 + (tileImgOf fetchTile p).h)) →
    (l.foldl (stitchOne fetchTile minX minY) base).pix i j = base.pix i j := by
  intro l
  induction l with
  | nil =>
    intro base _
    rfl
  | cons a rest ih =>
    intro base hout
    rw [List.foldl_cons]
    rw [ih _ (fun p hp => hout p (List.mem_cons_of_mem a hp))]
    exact imgPaste_pix_out _ _ _ _ _ _ (hout a (List.mem_cons_self a rest))

theorem foldl_stitch_pix (fetchTile : ℤ → ℤ → Option Img) (minX minY tx ty i j : ℤ)
    (h256 : ∀ p, (tileImgOf fetchTile p).w = 256 ∧ (tileImgOf fetchTile p).h = 256)
    (hreg : (tx - minX) * 256 ≤ i ∧ i < (tx - minX) * 256 + 256 ∧
        (ty - minY) * 256 ≤ j ∧ j < (ty - minY) * 256 + 256) :
    ∀ (l : List (ℤ × ℤ)) (base : Img), (tx, ty) ∈ l →
    (∀ p ∈ l, ((p.1 - minX) * 256 ≤ i ∧ i < (p.1 - minX) * 256 + 256 ∧
        (p.2 - minY) * 256 ≤ j ∧ j < (p.2 - minY) * 256 + 256) → p = (tx, ty)) →
    (l.foldl (stitchOne fetchTile minX minY) base).pix i j =
      (tileImgOf fetchTile (tx, ty)).pix (i - (tx - minX) * 256) (j - (ty - minY) * 256) := by
  intro l
  induction l with
  | nil =>
    intro base hmem
    exact absurd hmem (by simp)
  | cons a rest ih =>
    intro base hmem huniq
    rw [List.foldl_cons]
    by_cases hmm : (tx, ty) ∈ rest
    · exact ih _ hmm (fun p hp => huniq p (List.mem_cons_of_mem a hp))
    · have ha : a = (tx, ty) := by
        rcases List.mem_cons.mp hmem with h | h
        · exact h.symm
        · exact absurd h hmm
      subst ha
      rw [foldl_stitch_pix_out fetchTile minX minY i j rest _ ?_]
      · refine imgPaste_pix_in _ _ _ _ _ _ ?_
        rw [(h256 (tx, ty)).1, (h256 (tx, ty)).2]
        exact hreg
      · intro p hp hcontra
        rw [(h256 p).1, (h256 p).2] at hcontra
        exact hmm ((huniq p (List.mem_cons_of_mem (tx, ty) hp) hcontra) ▸ hp)

/-! ### Claim theorem for the basemap mosaic (C5) -/

/-- C5: `fetch_basemap_image` fails exactly when the world-clamped pixel
window is empty; otherwise, whatever the per-tile fetch outcomes, it
returns a canvas of exactly the requested size, and every canvas pixel
whose world pixel lies inside the fetch window in a tile whose fetch
failed carries the placeholder color RGB(230, 230, 230). -/
theorem fetch_basemap_image_spec (fetchTile : ℤ → ℤ → Option Img)
    (minLat maxLat minLon maxLon : ℝ) (w h : ℤ)
    (hw : 0 < w) (hh : 0 < h)
    (htiles : ∀ x y img, fetchTile x y = some img → img.w = 256 ∧ img.h = 256) :
    (fetch_basemap_image fetchTile minLat maxLat minLon maxLon w h = none ↔
      windowDegenerate minLat maxLat minLon maxLon w h) ∧
    (∀ img extent,
      fetch_basemap_image fetchTile minLat maxLat minLon maxLon w h =
        some (img, extent) →
      img.w = w ∧ img.h = h ∧
      (∀ tx ty i j, fetchTile tx ty = none →
        0 ≤ i → i < w → 0 ≤ j → j < h →
        fetchLeft minLat maxLat minLon maxLon w h ≤
          windowLeft minLat maxLat minLon maxLon w h + i →
        windowLeft minLat maxLat minLon maxLon w h + i <
          fetchRight minLat maxLat minLon maxLon w h →
        fetchTop minLat maxLat minLon maxLon w h ≤
          windowTop minLat maxLat minLon maxLon w h + j →
        windowTop minLat maxLat minLon maxLon w h + j <
          fetchBottom minLat maxLat minLon maxLon w h →
        Int.fdiv (windowLeft minLat maxLat minLon maxLon w h + i) 256 = tx →
        Int.fdiv (windowTop minLat maxLat minLon maxLon w h + j) 256 = ty →
        img.pix i j = (230, 230, 230))) := by
  have hfdiv : ∀ a : ℤ, Int.fdiv a 256 = a / 256 := fun a =>
    Int.fdiv_eq_ediv a (by norm_num)
  constructor
  · unfold fetch_basemap_image
    split_ifs with hd
    · simp [hd]
    · simp [hd]
  · intro img extent heq
    unfold fetch_basemap_image at heq
    split_ifs at heq with hnd
    rw [Option.some.injEq, Prod.mk.injEq] at heq
    obtain ⟨h1, h2⟩ := heq
    subst h1
    -- basic window arithmetic
    have hW : (0:ℤ) < 2 ^ bboxZoom minLat maxLat minLon maxLon w h := by
      positivity
    have hfl0 : 0 ≤ fetchLeft minLat maxLat minLon maxLon w h :=
      le_max_left 0 _
    have hft0 : 0 ≤ fetchTop minLat maxLat minLon maxLon w h :=
      le_max_left 0 _
    have hlfl : windowLeft minLat maxLat minLon maxLon w h ≤
        fetchLeft minLat maxLat minLon maxLon w h := le_max_right _ _
    have htft : windowTop minLat maxLat minLon maxLon w h ≤
        fetchTop minLat maxLat minLon maxLon w h := le_max_right _ _
    have hfrW : fetchRight minLat maxLat minLon maxLon w h ≤
        256 * 2 ^ bboxZoom minLat maxLat minLon maxLon w h :=
      min_le_left _ _
    have hfbW : fetchBottom minLat maxLat minLon maxLon w h ≤
        256 * 2 ^ bboxZoom minLat maxLat minLon maxLon w h :=
      min_le_left _ _
    have hfrw : fetchRight minLat maxLat minLon maxLon w h ≤
        windowLeft minLat maxLat minLon maxLon w h + w := min_le_right _ _
    have hfbh : fetchBottom minLat maxLat minLon maxLon w h ≤
        windowTop minLat maxLat minLon maxLon w h + h := min_le_right _ _
    have hflfr : fetchLeft minLat maxLat minLon maxLon w h <
        fetchRight minLat maxLat minLon maxLon w h := by
      unfold windowDegenerate at hnd
      omega
    have hftfb : fetchTop minLat maxLat minLon maxLon w h <
        fetchBottom minLat maxLat minLon maxLon w h := by
      unfold windowDegenerate at hnd
      omega
    -- tile bound equations
    have hmX : minXTile minLat maxLat minLon maxLon w h =
        fetchLeft minLat maxLat minLon maxLon w h / 256 := by
      show clampTile _ (Int.fdiv (fetchLeft minLat maxLat minLon maxLon w h) 256) = _
      unfold clampTile
      rw [hfdiv]
      omega
    have hMX : maxXTile minLat maxLat minLon maxLon w h =
        (fetchRight minLat maxLat minLon maxLon w h - 1) / 256 := by
      show clampTile _ (Int.fdiv (fetchRight minLat maxLat minLon maxLon w h - 1) 256) = _
      unfold clampTile
      rw [hfdiv]
      omega
    have hmY : minYTile minLat maxLat minLon maxLon w h =
        fetchTop minLat maxLat minLon maxLon w h / 256 := by
      show clampTile _ (Int.fdiv (fetchTop minLat maxLat minLon maxLon w h) 256) = _
      unfold clampTile
      rw [hfdiv]
      omega
    have hMY : maxYTile minLat maxLat minLon maxLon w h =
        (fetchBottom minLat maxLat minLon maxLon w h - 1) / 256 := by
      show clampTile _ (Int.fdiv (fetchBottom minLat maxLat minLon maxLon w h - 1) 256) = _
      unfold clampTile
      rw [hfdiv]
      omega
    -- crop size
    have hcw : (croppedImg fetchTile minLat maxLat minLon maxLon w h).w =
        fetchRight minLat maxLat minLon maxLon w h -
          fetchLeft minLat maxLat minLon maxLon w h := by
      show (fetchLeft minLat maxLat minLon maxLon w h -
          minXTile minLat maxLat minLon maxLon w h * 256 +
          (fetchRight minLat maxLat minLon maxLon w h -
            fetchLeft minLat maxLat minLon maxLon w h)) -
          (fetchLeft minLat maxLat minLon maxLon w h -
            minXTile minLat maxLat minLon maxLon w h * 256) = _
      ring
    have hch : (croppedImg fetchTile minLat maxLat minLon maxLon w h).h =
        fetchBottom minLat maxLat minLon maxLon w h -
          fetchTop minLat maxLat minLon maxLon w h := by
      show (fetchTop minLat maxLat minLon maxLon w h -
          minYTile minLat maxLat minLon maxLon w h * 256 +
          (fetchBottom minLat maxLat minLon maxLon w h -
            fetchTop minLat maxLat minLon maxLon w h)) -
          (fetchTop minLat maxLat minLon maxLon w h -
            minYTile minLat maxLat minLon maxLon w h * 256) = _
      ring
    -- the stitched-mosaic pixel fact
    have h256 := tileImgOf_size fetchTile htiles
    have hstitch : ∀ tx ty i j : ℤ,
        fetchLeft minLat maxLat minLon maxLon w h ≤
          windowLeft minLat maxLat minLon maxLon w h + i →
        windowLeft minLat maxLat minLon maxLon w h + i <
          fetchRight minLat maxLat minLon maxLon w h →
        fetchTop minLat maxLat minLon maxLon w h ≤
          windowTop minLat maxLat minLon maxLon w h + j →
        windowTop minLat maxLat minLon maxLon w h + j <
          fetchBottom minLat maxLat minLon maxLon w h →
        (windowLeft minLat maxLat minLon maxLon w h + i) / 256 = tx →
        (windowTop minLat maxLat minLon maxLon w h + j) / 256 = ty →
        (stitchedImg fetchTile minLat maxLat minLon maxLon w h).pix
          (windowLeft minLat maxLat minLon maxLon w h + i -
            minXTile minLat maxLat minLon maxLon w h * 256)
          (windowTop minLat maxLat minLon maxLon w h + j -
            minYTile minLat maxLat minLon maxLon w h * 256) =
        (tileImgOf fetchTile (tx, ty)).pix
          (windowLeft minLat maxLat minLon maxLon w h + i - tx * 256)
          (windowTop minLat maxLat minLon maxLon w h + j - ty * 256) := by
      intro tx ty i j hw1 hw2 hw3 hw4 htx hty
      unfold stitchedImg
      rw [foldl_stitch_pix fetchTile
        (minXTile minLat maxLat minLon maxLon w h)
        (minYTile minLat maxLat minLon maxLon w h) tx ty
        (windowLeft minLat maxLat minLon maxLon w h + i -
          minXTile minLat maxLat minLon maxLon w h * 256)
        (windowTop minLat maxLat minLon maxLon w h + j -
          minYTile minLat maxLat minLon maxLon w h * 256)
        h256 (by rw [hmX, hmY]; omega) _ _
        (tileList_mem _ _ _ _ tx ty (by rw [hmX]; omega) (by rw [hMX]; omega)
          (by rw [hmY]; omega) (by rw [hMY]; omega))
        ?_]
      · have e1 : windowLeft minLat maxLat minLon maxLon w h + i -
            minXTile minLat maxLat minLon maxLon w h * 256 -
            (tx - minXTile minLat maxLat minLon maxLon w h) * 256 =
            windowLeft minLat maxLat minLon maxLon w h + i - tx * 256 := by
          ring
        have e2 : windowTop minLat maxLat minLon maxLon w h + j -
            minYTile minLat maxLat minLon maxLon w h * 256 -
            (ty - minYTile minLat maxLat minLon maxLon w h) * 256 =
            windowTop minLat maxLat minLon maxLon w h + j - ty * 256 := by
          ring
        rw [e1, e2]
      · intro p hp hregp
        have hbounds := tileList_mem_bounds hp
        rw [hmX, hMX, hmY, hMY] at hbounds
        obtain ⟨p1, p2⟩ := p
        rw [hmX, hmY] at hregp
        rw [Prod.mk.injEq]
        constructor <;> omega
    refine ⟨?_, ?_, ?_⟩
    · unfold finalImg
      split_ifs with hcrop
      · exact hcrop.1
      · rfl
    · unfold finalImg
      split_ifs with hcrop
      · exact hcrop.2
      · rfl
    · intro tx ty i j hnone hi0 hiw hj0 hjh hw1 hw2 hw3 hw4 htx hty
      rw [hfdiv] at htx hty
      have hplaceholder : tileImgOf fetchTile (tx, ty) = placeholderTile := by
        unfold tileImgOf
        rw [hnone]
      have hs := hstitch tx ty i j hw1 hw2 hw3 hw4 htx hty
      rw [hplaceholder] at hs
      unfold finalImg
      split_ifs with hcrop
      · -- no padding: the fetch window is the full desired window
        rw [hcw] at hcrop
        have hfl_eq : fetchLeft minLat maxLat minLon maxLon w h =
            windowLeft minLat maxLat minLon maxLon w h := by omega
        have hft_eq : fetchTop minLat maxLat minLon maxLon w h =
            windowTop minLat maxLat minLon maxLon w h := by
          rw [hch] at hcrop
          omega
        show (stitchedImg fetchTile minLat maxLat minLon maxLon w h).pix
          (fetchLeft minLat maxLat minLon maxLon w h -
            minXTile minLat maxLat minLon maxLon w h * 256 + i)
          (fetchTop minLat maxLat minLon maxLon w h -
            minYTile minLat maxLat minLon maxLon w h * 256 + j) = (230, 230, 230)
        rw [show fetchLeft minLat maxLat minLon maxLon w h -
            minXTile minLat maxLat minLon maxLon w h * 256 + i =
            windowLeft minLat maxLat minLon maxLon w h + i -
            minXTile minLat maxLat minLon maxLon w h * 256 from by
          rw [hfl_eq]; ring]
        rw [show fetchTop minLat maxLat minLon maxLon w h -
            minYTile minLat maxLat minLon maxLon w h * 256 + j =
            windowTop minLat maxLat minLon maxLon w h + j -
            minYTile minLat maxLat minLon maxLon w h * 256 from by
          rw [hft_eq]; ring]
        rw [hs]
        rfl
      · -- padded case
        rw [imgPaste_pix_in _ _ _ _ _ _ ?_]
        · show (stitchedImg fetchTile minLat maxLat minLon maxLon w h).pix
            (fetchLeft minLat maxLat minLon maxLon w h -
              minXTile minLat maxLat minLon maxLon w h * 256 +
              (i - (fetchLeft minLat maxLat minLon maxLon w h -
                windowLeft minLat maxLat minLon maxLon w h)))
            (fetchTop minLat maxLat minLon maxLon w h -
              minYTile minLat maxLat minLon maxLon w h * 256 +
              (j - (fetchTop minLat maxLat minLon maxLon w h -
                windowTop minLat maxLat minLon maxLon w h))) = (230, 230, 230)
          rw [show fetchLeft minLat maxLat minLon maxLon w h -
              minXTile minLat maxLat minLon maxLon w h * 256 +
              (i - (fetchLeft minLat maxLat minLon maxLon w h -
                windowLeft minLat maxLat minLon maxLon w h)) =
              windowLeft minLat maxLat minLon maxLon w h + i -
              minXTile minLat maxLat minLon maxLon w h * 256 from by ring]
          rw [show fetchTop minLat maxLat minLon maxLon w h -
              minYTile minLat maxLat minLon maxLon w h * 256 +
              (j - (fetchTop minLat maxLat minLon maxLon w h -
                windowTop minLat maxLat minLon maxLon w h)) =
              windowTop minLat maxLat minLon maxLon w h + j -
              minYTile minLat maxLat minLon maxLon w h * 256 from by ring]
          rw [hs]
          rfl
        · rw [hcw, hch]
          omega

/-- Witness for C5 with an all-failing tile oracle at a concrete canvas
size (the conclusion holds for every bounding box; positivity of the
requested size and the tile-size side condition are discharged). -/
theorem fetch_basemap_image_spec_witness :
    (fetch_basemap_image (fun _ _ => none) 0 0 0 0 640 480 = none ↔
      windowDegenerate 0 0 0 0 640 480) ∧
    (∀ img extent,
      fetch_basemap_image (fun _ _ => none) 0 0 0 0 640 480 =
        some (img, extent) →
      img.w = 640 ∧ img.h = 480 ∧
      (∀ tx ty i j, (fun (_ _ : ℤ) => (none : Option Img)) tx ty = none →
        0 ≤ i → i < 640 → 0 ≤ j → j < 480 →
        fetchLeft 0 0 0 0 640 480 ≤ windowLeft 0 0 0 0 640 480 + i →
        windowLeft 0 0 0 0 640 480 + i < fetchRight 0 0 0 0 640 480 →
        fetchTop 0 0 0 0 640 480 ≤ windowTop 0 0 0 0 640 480 + j →
        windowTop 0 0 0 0 640 480 + j < fetchBottom 0 0 0 0 640 480 →
        Int.fdiv (windowLeft 0 0 0 0 640 480 + i) 256 = tx →
        Int.fdiv (windowTop 0 0 0 0 640 480 + j) 256 = ty →
        img.pix i j = (230, 230, 230))) :=
  fetch_basemap_image_spec (fun _ _ => none) 0 0 0 0 640 480
    (by norm_num) (by norm_num) (fun x y img himg => by cases himg)
